import Mathlib

/-!
# Verification of the covpeek coverage-report core

A shallow embedding of the covpeek repository's coverage model, format
detector, parsers (LCOV record format, Go cover range format, Cobertura
XML, Python coverage JSON) and the merge/diff aggregators, together with
theorems settling the specification claims against the code.

Conventions of the embedding:
* Go `int` becomes `Int`; Go `float64` arithmetic on coverage percentages
  becomes exact `ℚ` arithmetic (the program only divides and multiplies by
  100, and every claim is about exact values such as 50.0).
* A `bufio.Scanner` over a byte stream becomes a `List String` of the
  scanned lines.
* Go maps become association lists with insert-or-replace semantics
  (`covAddFile`, `linesInsert`); Go map lookup becomes `lookupStr` /
  `lookupInt`.
* Fallible Go functions returning `error` become `Except String _`.
* Pointer-mutating code (`mergeReports` in cmd/covpeek/ci.go) is embedded
  with an explicit heap: `FileCoverage` values live in a `List FileCoverage`
  and reports hold indices into it; `List.set` is the in-place write.
-/

namespace Covpeek

/-! ## String helpers, mirroring the Go standard library functions used by
the sources (`strings.TrimSpace`, `strings.HasPrefix`, `strings.TrimPrefix`,
`strings.Split`, `strings.SplitN`, `strings.Fields`, `strings.Contains`,
`strings.Index`, `strconv.Atoi`).  `goTrimSpace` trims the ASCII whitespace
characters; the inputs in this development contain no other Unicode spaces. -/

def goIsSpace (c : Char) : Bool :=
  c == ' ' || c == '\t' || c == '\n' || c == '\r' || c == Char.ofNat 11 || c == Char.ofNat 12

def goTrimSpace (s : String) : String :=
  String.mk (((s.toList.dropWhile goIsSpace).reverse.dropWhile goIsSpace).reverse)

def hasPrefixL : List Char → List Char → Bool
  | _, [] => true
  | [], _ :: _ => false
  | c :: cs, p :: ps => c == p && hasPrefixL cs ps

/-- `strings.HasPrefix s pre`. -/
def goHasPrefix (s pre : String) : Bool :=
  hasPrefixL s.toList pre.toList

/-- `strings.TrimPrefix s pre`. -/
def goTrimPrefix (s pre : String) : String :=
  if goHasPrefix s pre then String.mk (s.toList.drop pre.toList.length) else s

def splitCharAux (sep : Char) : List Char → List Char → List (List Char)
  | [], acc => [acc.reverse]
  | c :: cs, acc =>
    if c = sep then acc.reverse :: splitCharAux sep cs []
    else splitCharAux sep cs (c :: acc)

/-- `strings.Split s (String.singleton sep)`. -/
def goSplit (s : String) (sep : Char) : List String :=
  (splitCharAux sep s.toList []).map String.mk

/-- `strings.SplitN s (String.singleton sep) 2`. -/
def goSplitN2 (s : String) (sep : Char) : List String :=
  match goSplit s sep with
  | [] => [s]
  | [x] => [x]
  | x :: rest => [x, String.intercalate (String.mk [sep]) rest]

/-- `strings.Index s (String.singleton c)`: position of the first occurrence,
`none` standing for Go's `-1`. -/
def goIndexChar (s : String) (c : Char) : Option Nat :=
  s.toList.findIdx? (· = c)

def fieldsAux : List Char → List Char → List (List Char)
  | [], acc => if acc.isEmpty then [] else [acc.reverse]
  | c :: cs, acc =>
    if goIsSpace c then
      if acc.isEmpty then fieldsAux cs [] else acc.reverse :: fieldsAux cs []
    else fieldsAux cs (c :: acc)

/-- `strings.Fields s`: the maximal runs of non-whitespace characters. -/
def goFields (s : String) : List String :=
  (fieldsAux s.toList []).map String.mk

def containsSubAux (pat : List Char) : List Char → Bool
  | [] => hasPrefixL [] pat
  | c :: cs => hasPrefixL (c :: cs) pat || containsSubAux pat cs

/-- `strings.Contains s pat`. -/
def goContains (s pat : String) : Bool :=
  containsSubAux pat.toList s.toList

def digitVal (c : Char) : Option Nat :=
  if '0' ≤ c ∧ c ≤ '9' then some (c.toNat - '0'.toNat) else none

def digitsVal : List Char → Option Nat
  | [] => none
  | l => l.foldl (fun acc c => match acc, digitVal c with
      | some n, some d => some (n * 10 + d)
      | _, _ => none) (some 0)

/-- `strconv.Atoi s`: optional sign followed by one or more decimal digits;
anything else is an error (`none`).  Bit-width overflow is not modelled. -/
def goAtoi (s : String) : Option Int :=
  match s.toList with
  | [] => none
  | '+' :: rest => if rest.isEmpty then none else (digitsVal rest).map Int.ofNat
  | '-' :: rest => if rest.isEmpty then none else (digitsVal rest).map (fun n => -(n : Int))
  | l => (digitsVal l).map Int.ofNat

/-! ## The unified coverage model (pkg/models) -/

/-- `models.LineCoverage`. -/
structure LineCoverage where
  lineNumber : Int
  executionCount : Int
  checksum : String
  deriving DecidableEq, Repr

/-- `models.FunctionCoverage`. -/
structure FunctionCoverage where
  name : String
  lineNumber : Int
  executionCount : Int
  deriving DecidableEq, Repr

/-- `models.FileCoverage`.  The Go map `Lines map[int]LineCoverage` is an
association list with insert-or-replace updates. -/
structure FileCoverage where
  fileName : String
  totalLines : Int
  coveredLines : Int
  coveragePct : ℚ
  functions : List FunctionCoverage
  lines : List (Int × LineCoverage)
  deriving DecidableEq, Repr

/-- `models.CoverageReport`.  `Files map[string]*FileCoverage` is an
association list keyed by file name. -/
structure CoverageReport where
  testName : String
  files : List (String × FileCoverage)
  deriving DecidableEq, Repr

def lookupInt (k : Int) : List (Int × LineCoverage) → Option LineCoverage
  | [] => none
  | (k', v) :: rest => if k = k' then some v else lookupInt k rest

def linesInsert (k : Int) (v : LineCoverage) :
    List (Int × LineCoverage) → List (Int × LineCoverage)
  | [] => [(k, v)]
  | (k', v') :: rest =>
    if k = k' then (k, v) :: rest else (k', v') :: linesInsert k v rest

def lookupStr {β : Type} (k : String) : List (String × β) → Option β
  | [] => none
  | (k', v) :: rest => if k = k' then some v else lookupStr k rest

def filesInsert (k : String) (v : FileCoverage) :
    List (String × FileCoverage) → List (String × FileCoverage)
  | [] => [(k, v)]
  | (k', v') :: rest =>
    if k = k' then (k, v) :: rest else (k', v') :: filesInsert k v rest

/-- `models.NewCoverageReport`. -/
def newCoverageReport : CoverageReport := { testName := "", files := [] }

/-- `(*CoverageReport).AddFile`: `r.Files[fc.FileName] = fc`. -/
def covAddFile (r : CoverageReport) (fc : FileCoverage) : CoverageReport :=
  { r with files := filesInsert fc.fileName fc r.files }

/-- `(*CoverageReport).GetFile`. -/
def covGetFile (r : CoverageReport) (filename : String) : Option FileCoverage :=
  lookupStr filename r.files

/-- `(*FileCoverage).CalculateCoverage`: the percentage is recomputed only
when `TotalLines > 0`; otherwise the struct is untouched. -/
def calculateCoverage (fc : FileCoverage) : FileCoverage :=
  if 0 < fc.totalLines then
    { fc with coveragePct := ((fc.coveredLines : ℚ) / (fc.totalLines : ℚ)) * 100 }
  else fc

/-- `(*CoverageReport).CalculateOverallCoverage`. -/
def calculateOverallCoverage (r : CoverageReport) : Int × Int × ℚ :=
  let totalLines : Int := (r.files.map (fun p => p.2.totalLines)).sum
  let totalCovered : Int := (r.files.map (fun p => p.2.coveredLines)).sum
  let overallPct : ℚ :=
    if 0 < totalLines then ((totalCovered : ℚ) / (totalLines : ℚ)) * 100 else 0
  (totalLines, totalCovered, overallPct)

/-! ## The LCOV record-format parser (pkg/parser/lcov.go)

`Parse` scans lines, keeps an optional current-file context, collects
warnings (Go logs them; the model returns them), and adds a file to the
report only at an `end_of_record` line. -/

def lcovWarn (w : List String) (lineNum : Int) (msg : String) : List String :=
  w ++ ["line " ++ toString lineNum ++ ": " ++ msg]

/-- `parseFN`: `FN:<line>,<function name>`. -/
def parseFN (line : String) (file : FileCoverage) : Except String FileCoverage :=
  let data := goTrimPrefix line "FN:"
  match goSplitN2 data ',' with
  | [lineStr, functionName] =>
    match goAtoi lineStr with
    | none => .error ("invalid line number in FN: " ++ lineStr)
    | some lineNumber =>
      .ok { file with
            functions := file.functions ++
              [({ name := functionName, lineNumber := lineNumber,
                  executionCount := 0 } : FunctionCoverage)] }
  | _ => .error ("invalid FN format: " ++ line)

def updateFnExec (name : String) (c : Int) :
    List FunctionCoverage → List FunctionCoverage
  | [] => []
  | f :: fs =>
    if f.name = name then { f with executionCount := c } :: fs
    else f :: updateFnExec name c fs

/-- `parseFNDA`: `FNDA:<execution count>,<function name>`; only the first
function with a matching name is updated, a missing match is silent. -/
def parseFNDA (line : String) (file : FileCoverage) : Except String FileCoverage :=
  let data := goTrimPrefix line "FNDA:"
  match goSplitN2 data ',' with
  | [countStr, functionName] =>
    match goAtoi countStr with
    | none => .error ("invalid execution count in FNDA: " ++ countStr)
    | some execCount =>
      .ok { file with functions := updateFnExec functionName execCount file.functions }
  | _ => .error ("invalid FNDA format: " ++ line)

/-- `parseDA`: `DA:<line number>,<execution count>[,<checksum>]`. -/
def parseDA (line : String) (file : FileCoverage) : Except String FileCoverage :=
  let data := goTrimPrefix line "DA:"
  let parts := goSplit data ','
  if parts.length < 2 then .error ("invalid DA format: " ++ line)
  else
    match goAtoi (parts.getD 0 "") with
    | none => .error ("invalid line number in DA: " ++ parts.getD 0 "")
    | some lineNumber =>
      match goAtoi (parts.getD 1 "") with
      | none => .error ("invalid execution count in DA: " ++ parts.getD 1 "")
      | some execCount =>
        let checksum := if parts.length > 2 then parts.getD 2 "" else ""
        .ok { file with
              lines := linesInsert lineNumber
                ({ lineNumber := lineNumber, executionCount := execCount,
                   checksum := checksum } : LineCoverage) file.lines }

/-- `parseLH`: `LH:<number>` sets `CoveredLines` directly. -/
def parseLH (line : String) (file : FileCoverage) : Except String FileCoverage :=
  let data := goTrimPrefix line "LH:"
  match goAtoi data with
  | none => .error ("invalid LH value: " ++ data)
  | some count => .ok { file with coveredLines := count }

/-- `parseLF`: `LF:<number>` sets `TotalLines` directly. -/
def parseLF (line : String) (file : FileCoverage) : Except String FileCoverage :=
  let data := goTrimPrefix line "LF:"
  match goAtoi data with
  | none => .error ("invalid LF value: " ++ data)
  | some count => .ok { file with totalLines := count }

structure LcovState where
  report : CoverageReport
  current : Option FileCoverage
  warnings : List String
  deriving DecidableEq, Repr

/-- Dispatch on a record that needs an active source file: a missing context
warns with `msg`; a helper error becomes a warning; success updates the
current file. -/
def lcovWithFile (st : LcovState) (lineNum : Int) (msg : String)
    (f : FileCoverage → Except String FileCoverage) : LcovState :=
  match st.current with
  | none => { st with warnings := lcovWarn st.warnings lineNum msg }
  | some file =>
    match f file with
    | .ok file' => { st with current := some file' }
    | .error e => { st with warnings := lcovWarn st.warnings lineNum e }

/-- One iteration of the scan loop of `(*LCOVParser).Parse`, following the
`switch` case order of lcov.go. -/
def lcovStep (st : LcovState) (lineNum : Int) (raw : String) : LcovState :=
  let line := goTrimSpace raw
  if line = "" then st
  else if goHasPrefix line "TN:" then
    { st with report := { st.report with testName := goTrimPrefix line "TN:" } }
  else if goHasPrefix line "SF:" then
    { st with
      current := some
        ({ fileName := goTrimPrefix line "SF:", totalLines := 0, coveredLines := 0,
           coveragePct := 0, functions := [], lines := [] } : FileCoverage) }
  else if goHasPrefix line "FN:" then
    lcovWithFile st lineNum "FN record without active source file" (parseFN line)
  else if goHasPrefix line "FNDA:" then
    lcovWithFile st lineNum "FNDA record without active source file" (parseFNDA line)
  else if goHasPrefix line "FNF:" then st
  else if goHasPrefix line "FNH:" then st
  else if goHasPrefix line "DA:" then
    lcovWithFile st lineNum "DA record without active source file" (parseDA line)
  else if goHasPrefix line "LH:" then
    lcovWithFile st lineNum "LH record without active source file" (parseLH line)
  else if goHasPrefix line "LF:" then
    lcovWithFile st lineNum "LF record without active source file" (parseLF line)
  else if goHasPrefix line "BRF:" then st
  else if goHasPrefix line "BRH:" then st
  else if goHasPrefix line "BRDA:" then st
  else if line = "end_of_record" then
    match st.current with
    | some file =>
      { st with report := covAddFile st.report (calculateCoverage file), current := none }
    | none => st
  else
    { st with warnings := lcovWarn st.warnings lineNum ("unknown record type: " ++ line) }

def lcovLoop (st : LcovState) (lineNum : Int) : List String → LcovState
  | [] => st
  | raw :: rest => lcovLoop (lcovStep st lineNum raw) (lineNum + 1) rest

/-- `(*LCOVParser).Parse`, over the scanned lines.  The Go code returns the
report and a nil error (stream-read failures are outside this model); the
warnings list is the parser's accumulated warnings. -/
def lcovParse (lines : List String) : CoverageReport × List String :=
  let st := lcovLoop { report := newCoverageReport, current := none, warnings := [] } 1 lines
  (st.report, st.warnings)

/-! ## The Go cover range-format parser (pkg/parser/gocover.go) -/

def lineRange (startLine endLine : Int) : List Int :=
  (List.range (endLine - startLine + 1).toNat).map (fun i => startLine + (i : Int))

/-- The per-line update of `parseCoverageEntry` (gocover.go:153-171): in
`count`/`atomic` mode an existing line's count accumulates; otherwise a
positive `execCount` forces the count to 1 and a non-positive one leaves the
existing entry as is; a line seen for the first time records the raw
`execCount`. -/
def applyLine (mode : String) (lines : List (Int × LineCoverage))
    (lineNo execCount : Int) : List (Int × LineCoverage) :=
  match lookupInt lineNo lines with
  | some existing =>
    if mode = "count" ∨ mode = "atomic" then
      linesInsert lineNo
        { existing with executionCount := existing.executionCount + execCount } lines
    else
      if 0 < execCount then
        linesInsert lineNo { existing with executionCount := 1 } lines
      else
        linesInsert lineNo existing lines
  | none =>
    linesInsert lineNo
      { lineNumber := lineNo, executionCount := execCount, checksum := "" } lines

/-- The post-range bookkeeping of `parseCoverageEntry`: every line of
`[startLine, endLine]` is applied, then `TotalLines` and `CoveredLines` are
recomputed from the line map.  (The increment loop at gocover.go:174-188
never fires — each entry's `LineNumber` equals its own key — and the
unconditional recomputation at gocover.go:191-200 overwrites the counts
anyway, so only the recomputation is observable.) -/
def applyEntry (mode : String) (file : FileCoverage)
    (startLine endLine execCount : Int) : FileCoverage :=
  let newLines := (lineRange startLine endLine).foldl
    (fun ls n => applyLine mode ls n execCount) file.lines
  { file with
    lines := newLines,
    totalLines := (newLines.length : Int),
    coveredLines := ((newLines.filter (fun p => 0 < p.2.executionCount)).length : Int) }

/-- `(*GoCoverParser).parseCoverageEntry`:
`file:startLine.startCol,endLine.endCol numberOfStatements count`. -/
def parseCoverageEntry (mode : String) (report : CoverageReport) (line : String) :
    Except String CoverageReport :=
  match goIndexChar line ':' with
  | none => .error ("invalid coverage entry format: " ++ line)
  | some colonIdx =>
    let filename := String.mk (line.toList.take colonIdx)
    let coverageData := String.mk (line.toList.drop (colonIdx + 1))
    let parts := goFields coverageData
    if parts.length ≠ 3 then .error ("invalid coverage data format: " ++ coverageData)
    else
      let rangeParts := goSplit (parts.getD 0 "") ','
      if rangeParts.length ≠ 2 then
        .error ("invalid line range format: " ++ parts.getD 0 "")
      else
        let startParts := goSplit (rangeParts.getD 0 "") '.'
        if startParts.length ≠ 2 then
          .error ("invalid start position format: " ++ rangeParts.getD 0 "")
        else
          let endParts := goSplit (rangeParts.getD 1 "") '.'
          if endParts.length ≠ 2 then
            .error ("invalid end position format: " ++ rangeParts.getD 1 "")
          else
            match goAtoi (startParts.getD 0 "") with
            | none => .error ("invalid start line number: " ++ startParts.getD 0 "")
            | some startLine =>
              match goAtoi (endParts.getD 0 "") with
              | none => .error ("invalid end line number: " ++ endParts.getD 0 "")
              | some endLine =>
                match goAtoi (parts.getD 1 "") with
                | none => .error ("invalid number of statements: " ++ parts.getD 1 "")
                | some _numStatements =>
                  match goAtoi (parts.getD 2 "") with
                  | none => .error ("invalid execution count: " ++ parts.getD 2 "")
                  | some execCount =>
                    let file := match covGetFile report filename with
                      | some f => f
                      | none =>
                        { fileName := filename, totalLines := 0, coveredLines := 0,
                          coveragePct := 0, functions := [], lines := [] }
                    .ok (covAddFile report
                          (applyEntry mode file startLine endLine execCount))

/-- The entry-scanning loop of `(*GoCoverParser).Parse` (gocover.go:52-65):
a malformed entry becomes a warning, never an error. -/
def gocoverLoop (mode : String) (report : CoverageReport) (warnings : List String)
    (lineNum : Int) : List String → CoverageReport × List String
  | [] => (report, warnings)
  | raw :: rest =>
    let line := goTrimSpace raw
    if line = "" then gocoverLoop mode report warnings (lineNum + 1) rest
    else
      match parseCoverageEntry mode report line with
      | .ok report' => gocoverLoop mode report' warnings (lineNum + 1) rest
      | .error e =>
        gocoverLoop mode report (lcovWarn warnings lineNum e) (lineNum + 1) rest

/-- `(*GoCoverParser).Parse` over the scanned lines: an empty stream and a
first line without the `mode:` prefix are the hard errors; an unknown mode
value only warns; after the loop every file's percentage is recomputed. -/
def gocoverParse (lines : List String) : Except String (CoverageReport × List String) :=
  match lines with
  | [] => .error "empty coverage file"
  | first :: rest =>
    let firstLine := goTrimSpace first
    if ¬ goHasPrefix firstLine "mode:" then
      .error "invalid Go coverage file: missing mode declaration on line 1"
    else
      let mode := goTrimSpace (goTrimPrefix firstLine "mode:")
      let warnings0 :=
        if mode ≠ "set" ∧ mode ≠ "count" ∧ mode ≠ "atomic" then
          lcovWarn [] 1 ("unknown coverage mode: " ++ mode)
        else []
      let (report, warnings) := gocoverLoop mode newCoverageReport warnings0 2 rest
      .ok ({ report with files := report.files.map (fun p => (p.1, calculateCoverage p.2)) },
           warnings)

/-! ## The format detector (internal/detector, src/unnamed/part_007) -/

inductive CoverageFormat where
  | unknown
  | lcov
  | goCover
  | pyCoverXML
  | pyCoverJSON
  deriving DecidableEq, Repr

structure DetectState where
  lineCount : Nat
  hasLCOV : Bool
  hasGo : Bool
  hasXML : Bool
  hasJSON : Bool
  deriving DecidableEq, Repr

/-- One iteration of the `DetectFormat` scan loop.  `lineCount` is bumped
before the empty-line skip, so the `mode:` test fires only on the first
physical line, and only when the line has exactly two fields whose second is
`set`, `count` or `atomic`. -/
def detectStep (st : DetectState) (raw : String) : DetectState :=
  let line := goTrimSpace raw
  let st := { st with lineCount := st.lineCount + 1 }
  if line = "" then st
  else
    let goMarker : Bool :=
      st.lineCount = 1 && goHasPrefix line "mode:" &&
        (match goFields line with
          | [_, mode] => mode = "set" || mode = "count" || mode = "atomic"
          | _ => false)
    { st with
      hasGo := st.hasGo || goMarker,
      hasXML := st.hasXML || goContains line "<coverage" ||
        goContains line "<class filename=",
      hasJSON := st.hasJSON || goContains line "\"files\"" ||
        goContains line "\"executed_lines\"",
      hasLCOV := st.hasLCOV || goHasPrefix line "TN:" || goHasPrefix line "SF:" ||
        goHasPrefix line "FN:" || goHasPrefix line "FNDA:" ||
        goHasPrefix line "DA:" || goHasPrefix line "LH:" ||
        goHasPrefix line "LF:" || line = "end_of_record" }

/-- `DetectFormat` over the scanned lines: at most the first ten lines are
examined, then the marker flags are consulted in the fixed precedence order
Go > XML > JSON > LCOV. -/
def detectFormat (lines : List String) : CoverageFormat :=
  let st := (lines.take 10).foldl detectStep
    { lineCount := 0, hasLCOV := false, hasGo := false, hasXML := false, hasJSON := false }
  if st.hasGo then .goCover
  else if st.hasXML then .pyCoverXML
  else if st.hasJSON then .pyCoverJSON
  else if st.hasLCOV then .lcov
  else .unknown

/-! ## The Cobertura XML parser (pkg/parser/pycover_xml.go)

`encoding/xml` decoding into the `Class`/`Line` structs is outside the
repository; `parseClass` receives the already-decoded class element. -/

structure XLine where
  number : Int
  hits : Int
  deriving DecidableEq, Repr

structure XClass where
  filename : String
  lines : List XLine
  deriving DecidableEq, Repr

/-- The body of the line loop of `parseClass` (pycover_xml.go:97-105): the
element is written into the line map keyed by its `number` (a later
duplicate overwrites an earlier one); a negative `hits` value only warns. -/
def xmlClassStep (filename : String) (acc : List (Int × LineCoverage) × List String)
    (l : XLine) : List (Int × LineCoverage) × List String :=
  let ws := if l.hits < 0 then
      acc.2 ++ ["file " ++ filename ++ ": line " ++ toString l.number ++
                " has negative hit count " ++ toString l.hits]
    else acc.2
  (linesInsert l.number
    { lineNumber := l.number, executionCount := l.hits, checksum := "" } acc.1, ws)

/-- `(*PyCoverXMLParser).parseClass`: a leading `./` is stripped, the line
elements fill the line map, and the counts are recomputed from the
resulting map. -/
def parseClass (cls : XClass) : FileCoverage × List String :=
  let filename := goTrimPrefix cls.filename "./"
  let (lineMap, warnings) := cls.lines.foldl (xmlClassStep filename) ([], [])
  ({ fileName := filename,
     totalLines := (lineMap.length : Int),
     coveredLines := ((lineMap.filter (fun p => 0 < p.2.executionCount)).length : Int),
     coveragePct := 0, functions := [], lines := lineMap }, warnings)

/-- The warning-free projection of `xmlClassStep` on the line map. -/
def xmlLineStep (m : List (Int × LineCoverage)) (l : XLine) :
    List (Int × LineCoverage) :=
  linesInsert l.number
    { lineNumber := l.number, executionCount := l.hits, checksum := "" } m

/-! ## The Python coverage JSON parser (src/unnamed/part_011)

The byte stream is decoded by `encoding/json` into `CoverageJSON`; that
stdlib stage is modelled: `Json` is the abstract value of a well-formed
document (numbers restricted to the integers the struct fields need), and
`decodeCoverageJSON` follows Go's `Unmarshal` rules for these struct types —
a missing key yields the zero value, `null` is a no-op, an unknown key is
ignored, and a type mismatch contributes the zero value while flagging an
error that `Unmarshal` reports after finishing, which `Parse` turns into a
hard error. -/

inductive Json where
  | null
  | bool (b : Bool)
  | num (n : Int)
  | str (s : String)
  | arr (xs : List Json)
  | obj (kvs : List (String × Json))
  deriving Repr

structure SummaryJSON where
  coveredLines : Int
  numStatements : Int
  deriving DecidableEq, Repr

structure FileCoverageJSON where
  executedLines : List Int
  missingLines : List Int
  summary : SummaryJSON
  deriving DecidableEq, Repr

structure CoverageJSON where
  files : List (String × FileCoverageJSON)
  deriving DecidableEq, Repr

def decodeInt : Json → Int × Bool
  | .num n => (n, false)
  | .null => (0, false)
  | _ => (0, true)

def decodeIntList : Json → List Int × Bool
  | .arr xs =>
    let decoded := xs.map decodeInt
    (decoded.map Prod.fst, decoded.any Prod.snd)
  | .null => ([], false)
  | _ => ([], true)

def jsonField (kvs : List (String × Json)) (key : String) : Json :=
  match lookupStr key kvs with
  | some v => v
  | none => .null

def decodeSummary : Json → SummaryJSON × Bool
  | .obj kvs =>
    let (c, e1) := decodeInt (jsonField kvs "covered_lines")
    let (n, e2) := decodeInt (jsonField kvs "num_statements")
    ({ coveredLines := c, numStatements := n }, e1 || e2)
  | .null => ({ coveredLines := 0, numStatements := 0 }, false)
  | _ => ({ coveredLines := 0, numStatements := 0 }, true)

def decodeFileCoverageJSON : Json → FileCoverageJSON × Bool
  | .obj kvs =>
    let (ex, e1) := decodeIntList (jsonField kvs "executed_lines")
    let (mi, e2) := decodeIntList (jsonField kvs "missing_lines")
    let (su, e3) := decodeSummary (jsonField kvs "summary")
    ({ executedLines := ex, missingLines := mi, summary := su }, e1 || e2 || e3)
  | .null =>
    ({ executedLines := [], missingLines := [],
       summary := { coveredLines := 0, numStatements := 0 } }, false)
  | _ =>
    ({ executedLines := [], missingLines := [],
       summary := { coveredLines := 0, numStatements := 0 } }, true)

def decodeCoverageJSON : Json → CoverageJSON × Bool
  | .obj kvs =>
    (match jsonField kvs "files" with
      | .obj fileKvs =>
        let decoded := fileKvs.map (fun kv => (kv.1, decodeFileCoverageJSON kv.2))
        ({ files := decoded.map (fun kv => (kv.1, kv.2.1)) },
         decoded.any (fun kv => kv.2.2))
      | .null => ({ files := [] }, false)
      | _ => ({ files := [] }, true))
  | .null => ({ files := [] }, false)
  | _ => ({ files := [] }, true)

/-- `(*PyCoverJSONParser).parseFile`: every Go path returns `nil`, so the
embedding only ever builds `.ok`. -/
def pyJsonParseFile (filename : String) (fileData : FileCoverageJSON)
    (report : CoverageReport) : Except String (CoverageReport × List String) :=
  let filename := goTrimPrefix filename "./"
  let afterExecuted := fileData.executedLines.foldl
    (fun ls n => linesInsert n
      { lineNumber := n, executionCount := 1, checksum := "" } ls) []
  let lineMap := fileData.missingLines.foldl
    (fun ls n => match lookupInt n ls with
      | some _ => ls
      | none => linesInsert n
          { lineNumber := n, executionCount := 0, checksum := "" } ls) afterExecuted
  let lineTotal : Int := lineMap.length
  let lineCovered : Int := (lineMap.filter (fun p => 0 < p.2.executionCount)).length
  if 0 < fileData.summary.numStatements then
    let w1 := if fileData.summary.numStatements ≠ lineTotal then
        ["file " ++ filename ++ ": summary num_statements (" ++
         toString fileData.summary.numStatements ++ ") doesn't match line count (" ++
         toString lineTotal ++ ")"]
      else []
    let w2 := if fileData.summary.coveredLines ≠ lineCovered then
        ["file " ++ filename ++ ": summary covered_lines (" ++
         toString fileData.summary.coveredLines ++
         ") doesn't match calculated covered lines (" ++ toString lineCovered ++ ")"]
      else []
    .ok (covAddFile report
          { fileName := filename, totalLines := fileData.summary.numStatements,
            coveredLines := fileData.summary.coveredLines, coveragePct := 0,
            functions := [], lines := lineMap }, w1 ++ w2)
  else
    .ok (covAddFile report
          { fileName := filename, totalLines := lineTotal,
            coveredLines := lineCovered, coveragePct := 0,
            functions := [], lines := lineMap }, [])

/-- The per-file loop of `(*PyCoverJSONParser).Parse`: a `parseFile` error
would be turned into a warning and the file skipped. -/
def pyJsonFilesLoop (report : CoverageReport) (warnings : List String) :
    List (String × FileCoverageJSON) → CoverageReport × List String
  | [] => (report, warnings)
  | (filename, fileData) :: rest =>
    match pyJsonParseFile filename fileData report with
    | .ok (report', w) => pyJsonFilesLoop report' (warnings ++ w) rest
    | .error e =>
      pyJsonFilesLoop report
        (warnings ++ ["failed to parse file " ++ filename ++ ": " ++ e]) rest

/-- `(*PyCoverJSONParser).Parse`: `none` models a byte stream that is not
well-formed JSON (the stdlib `Unmarshal` fails), a flagged decode error is
the wrapped `Unmarshal` error, and otherwise every file entry is processed
and every file's percentage recomputed. -/
def pyJsonParse (input : Option Json) : Except String (CoverageReport × List String) :=
  match input with
  | none => .error "failed to parse JSON: syntax error"
  | some j =>
    let (coverageJSON, bad) := decodeCoverageJSON j
    if bad then .error "failed to parse JSON: unmarshal error"
    else
      let (report, warnings) := pyJsonFilesLoop newCoverageReport [] coverageJSON.files
      .ok ({ report with files := report.files.map (fun p => (p.1, calculateCoverage p.2)) },
           warnings)

/-! ## Diff (cmd/covpeek/diff_test.go: `computeDiff`) -/

structure FileChange where
  fileName : String
  coverageA : ℚ
  coverageB : ℚ
  delta : ℚ
  deriving DecidableEq, Repr

structure CoverageDiff where
  overallA : ℚ
  overallB : ℚ
  overallDelta : ℚ
  fileChanges : List FileChange
  deriving DecidableEq, Repr

/-- The `fileMap` set built by `computeDiff`: the union of both key lists,
each name once (Go iterates the set in an unspecified order; the model keeps
the first-occurrence order). -/
def keyUnion (seen : List String) : List String → List String
  | [] => []
  | k :: rest =>
    if k ∈ seen then keyUnion seen rest else k :: keyUnion (k :: seen) rest

/-- The loop body of `computeDiff` for one union name: an absent side
contributes 0 and `delta = coverageB - coverageA`. -/
def diffEntry (reportA reportB : CoverageReport) (fname : String) : FileChange :=
  let covA : ℚ := match covGetFile reportA fname with
    | some fc => fc.coveragePct
    | none => 0
  let covB : ℚ := match covGetFile reportB fname with
    | some fc => fc.coveragePct
    | none => 0
  { fileName := fname, coverageA := covA, coverageB := covB,
    delta := covB - covA }

/-- `computeDiff`: one `FileChange` per union name. -/
def computeDiff (reportA reportB : CoverageReport) : CoverageDiff :=
  let overallA := (calculateOverallCoverage reportA).2.2
  let overallB := (calculateOverallCoverage reportB).2.2
  let names := keyUnion [] (reportA.files.map Prod.fst ++ reportB.files.map Prod.fst)
  let fileChanges := names.map (diffEntry reportA reportB)
  { overallA := overallA, overallB := overallB,
    overallDelta := overallB - overallA, fileChanges := fileChanges }

/-! ## Merge (cmd/covpeek/ci.go: `mergeReports`)

`mergeReports` iterates the input reports' `*FileCoverage` pointers: the
first pointer carrying a name is put into the merged map as is
(`merged.AddFile(file)` stores the input's pointer), and a later pointer
with the same name mutates the stored — input-owned — struct through the
alias.  The embedding makes the pointers explicit: `FileCoverage` values
live in a heap (`List FileCoverage`, pointer = index) and the write is
`List.set`. -/

abbrev Heap := List FileCoverage

def heapGet (heap : Heap) (p : Nat) : FileCoverage :=
  heap.getD p
    { fileName := "", totalLines := 0, coveredLines := 0, coveragePct := 0,
      functions := [], lines := [] }

/-- The body of the inner loop of `mergeReports` for one input pointer `p`:
an existing entry for the name is summed into and recomputed in place
(ci.go:151-155), a new name stores the pointer itself (ci.go:157). -/
def mergeStep (hp : Heap × List (String × Nat)) (p : Nat) : Heap × List (String × Nat) :=
  let fc := heapGet hp.1 p
  match lookupStr fc.fileName hp.2 with
  | some q =>
    let existing := heapGet hp.1 q
    let existing' := calculateCoverage
      { existing with
        totalLines := existing.totalLines + fc.totalLines,
        coveredLines := existing.coveredLines + fc.coveredLines }
    (hp.1.set q existing', hp.2)
  | none => (hp.1, hp.2 ++ [(fc.fileName, p)])

def mergeEntries (hp : Heap × List (String × Nat)) (ps : List Nat) :
    Heap × List (String × Nat) :=
  ps.foldl mergeStep hp

/-- `mergeReports` over a heap and the input reports' pointer lists; the
result is the final heap together with the merged report's name-to-pointer
map (`merged.Files`). -/
def mergeReportsH (heap : Heap) (reports : List (List Nat)) : Heap × List (String × Nat) :=
  reports.foldl mergeEntries (heap, [])

/-! ## Helper lemmas about the association-list operations -/

theorem lookupStr_append {β : Type} (n : String) (l₁ l₂ : List (String × β)) :
    lookupStr n (l₁ ++ l₂) =
      (match lookupStr n l₁ with
        | some v => some v
        | none => lookupStr n l₂) := by
  induction l₁ with
  | nil => simp [lookupStr]
  | cons e rest ih =>
    by_cases h : n = e.1
    · simp [lookupStr, h]
    · simpa [lookupStr, h] using ih

theorem lookupStr_mem {β : Type} {n : String} {v : β} {l : List (String × β)}
    (h : lookupStr n l = some v) : (n, v) ∈ l := by
  induction l with
  | nil => simp [lookupStr] at h
  | cons e rest ih =>
    by_cases he : n = e.1
    · subst he
      simp [lookupStr] at h
      subst h
      exact List.mem_cons_self _ _
    · simp [lookupStr, he] at h
      exact List.mem_cons_of_mem _ (ih h)

theorem mem_keys_of_lookupStr {β : Type} {n : String} {v : β} {l : List (String × β)}
    (h : lookupStr n l = some v) : n ∈ l.map Prod.fst := by
  have := lookupStr_mem h
  exact List.mem_map.mpr ⟨(n, v), this, rfl⟩

theorem lookupStr_isSome_iff {β : Type} (n : String) (l : List (String × β)) :
    (∃ v, lookupStr n l = some v) ↔ n ∈ l.map Prod.fst := by
  induction l with
  | nil => simp [lookupStr]
  | cons e rest ih =>
    by_cases he : n = e.1
    · simp [lookupStr, he]
    · simp [lookupStr, he, ih]

theorem filesInsert_keys_mem (k m : String) (v : FileCoverage)
    (l : List (String × FileCoverage)) :
    m ∈ (filesInsert k v l).map Prod.fst ↔ m = k ∨ m ∈ l.map Prod.fst := by
  induction l with
  | nil => simp [filesInsert]
  | cons e rest ih =>
    by_cases hk : k = e.1
    · subst hk
      simp [filesInsert]
    · simp only [filesInsert, if_neg hk, List.map_cons, List.mem_cons, ih]
      tauto

theorem lookupInt_linesInsert_self (k : Int) (v : LineCoverage)
    (l : List (Int × LineCoverage)) :
    lookupInt k (linesInsert k v l) = some v := by
  induction l with
  | nil => simp [linesInsert, lookupInt]
  | cons e rest ih =>
    by_cases hk : k = e.1
    · simp [linesInsert, hk, lookupInt]
    · simp [linesInsert, hk, lookupInt, ih]

theorem lookupInt_linesInsert_ne {k j : Int} (hne : j ≠ k) (v : LineCoverage)
    (l : List (Int × LineCoverage)) :
    lookupInt j (linesInsert k v l) = lookupInt j l := by
  induction l with
  | nil => simp [linesInsert, lookupInt, hne]
  | cons e rest ih =>
    by_cases hk : k = e.1
    · subst hk
      simp [linesInsert, lookupInt, hne]
    · by_cases hj : j = e.1
      · simp [linesInsert, hk, lookupInt, hj]
      · simp [linesInsert, hk, lookupInt, hj, ih]

theorem linesInsert_of_not_mem {k : Int} {l : List (Int × LineCoverage)}
    (h : k ∉ l.map Prod.fst) (v : LineCoverage) :
    linesInsert k v l = l ++ [(k, v)] := by
  induction l with
  | nil => simp [linesInsert]
  | cons e rest ih =>
    simp only [List.map_cons, List.mem_cons] at h
    push_neg at h
    simp [linesInsert, h.1, ih h.2]

theorem linesInsert_keys_mem (k m : Int) (v : LineCoverage)
    (l : List (Int × LineCoverage)) :
    m ∈ (linesInsert k v l).map Prod.fst ↔ m = k ∨ m ∈ l.map Prod.fst := by
  induction l with
  | nil => simp [linesInsert]
  | cons e rest ih =>
    by_cases hk : k = e.1
    · subst hk
      simp [linesInsert]
    · simp only [linesInsert, if_neg hk, List.map_cons, List.mem_cons, ih]
      tauto

/-! ## Claim C3: the literal LCOV round-trip -/

/-- Claim C3.  Parsing `TN:t / SF:f.go / DA:1,1 / DA:2,0 / LH:1 / LF:2 /
end_of_record` yields test name `t` and exactly the file `f.go` with
`TotalLines = 2` (from LF), `CoveredLines = 1` (from LH),
`CoveragePct = 50`, and line entries 1 ↦ count 1 and 2 ↦ count 0, with no
warnings. -/
theorem lcov_literal_roundtrip :
    lcovParse ["TN:t", "SF:f.go", "DA:1,1", "DA:2,0", "LH:1", "LF:2", "end_of_record"] =
      ({ testName := "t",
         files := [("f.go",
           { fileName := "f.go", totalLines := 2, coveredLines := 1,
             coveragePct := 50, functions := [],
             lines := [(1, { lineNumber := 1, executionCount := 1, checksum := "" }),
                       (2, { lineNumber := 2, executionCount := 0, checksum := "" })] })] },
       []) := by
  have h : lcovParse ["TN:t", "SF:f.go", "DA:1,1", "DA:2,0", "LH:1", "LF:2", "end_of_record"] =
      ({ testName := "t",
         files := [("f.go",
           { fileName := "f.go", totalLines := 2, coveredLines := 1,
             coveragePct := ((1 : Int) : ℚ) / ((2 : Int) : ℚ) * 100, functions := [],
             lines := [(1, { lineNumber := 1, executionCount := 1, checksum := "" }),
                       (2, { lineNumber := 2, executionCount := 0, checksum := "" })] })] },
       []) := rfl
  rw [h]
  norm_num

/-! ## Claim C7: CalculateCoverage and TotalLines = 0 -/

/-- Claim C7, counterexample.  `CalculateCoverage` on a `FileCoverage` with
`TotalLines = 0` but a nonzero stored percentage leaves the percentage at
its old value, not 0: the claim's universally quantified "CoveragePct is 0"
fails. -/
theorem calculateCoverage_zero_total_cex :
    (calculateCoverage
      { fileName := "f", totalLines := 0, coveredLines := 0, coveragePct := 50,
        functions := [], lines := [] }).coveragePct = 50 ∧ (50 : ℚ) ≠ 0 := by
  constructor
  · rfl
  · decide

/-- Claim C7, amended.  `CalculateCoverage` divides only under the guard
`TotalLines > 0`: when `TotalLines ≤ 0` the struct — in particular
`CoveragePct` — is returned unchanged, so a zero percentage stays exactly
zero and no division by zero ever happens. -/
theorem calculateCoverage_zero_total :
    (∀ fc : FileCoverage, fc.totalLines ≤ 0 → calculateCoverage fc = fc) ∧
    (∀ fc : FileCoverage, fc.totalLines = 0 →
      (calculateCoverage fc).coveragePct = fc.coveragePct) ∧
    (∀ fc : FileCoverage, fc.totalLines = 0 → fc.coveragePct = 0 →
      (calculateCoverage fc).coveragePct = 0) := by
  refine ⟨fun fc h => ?_, fun fc h => ?_, fun fc h h0 => ?_⟩
  · simp [calculateCoverage, not_lt.mpr h]
  · simp [calculateCoverage, h]
  · simp [calculateCoverage, h, h0]

/-- Claim C7, witness: the guarded branch at the concrete all-zero file. -/
theorem calculateCoverage_zero_total_witness :
    (calculateCoverage
      { fileName := "g", totalLines := 0, coveredLines := 3, coveragePct := 0,
        functions := [], lines := [] }).coveragePct = 0 :=
  calculateCoverage_zero_total.2.2
    { fileName := "g", totalLines := 0, coveredLines := 3, coveragePct := 0,
      functions := [], lines := [] } rfl rfl

/-! ## Claim C10: unterminated LCOV sections are dropped silently -/

theorem hasPrefixL_disjoint_head {l : List Char} {a b : Char} {p q : List Char}
    (hab : a ≠ b) (h : hasPrefixL l (a :: p) = true) :
    hasPrefixL l (b :: q) = false := by
  cases l with
  | nil => simp [hasPrefixL] at h
  | cons c cs =>
    simp only [hasPrefixL, Bool.and_eq_true, beq_iff_eq] at h
    simp [hasPrefixL, h.1, hab]

theorem lcovWithFile_report (st : LcovState) (n : Int) (msg : String)
    (f : FileCoverage → Except String FileCoverage) :
    (lcovWithFile st n msg f).report = st.report := by
  cases hcur : st.current with
  | none => simp [lcovWithFile, hcur]
  | some file =>
    cases hf : f file with
    | ok file' => simp [lcovWithFile, hcur, hf]
    | error e => simp [lcovWithFile, hcur, hf]

set_option maxHeartbeats 1600000 in
theorem lcovStep_files_of_ne_end (st : LcovState) (n : Int) (raw : String)
    (h : goTrimSpace raw ≠ "end_of_record") :
    (lcovStep st n raw).report.files = st.report.files := by
  unfold lcovStep
  dsimp only
  by_cases h1 : goTrimSpace raw = ""
  · rw [if_pos h1]
  rw [if_neg h1]
  by_cases h2 : goHasPrefix (goTrimSpace raw) "TN:" = true
  · rw [if_pos h2]
  rw [if_neg h2]
  by_cases h3 : goHasPrefix (goTrimSpace raw) "SF:" = true
  · rw [if_pos h3]
  rw [if_neg h3]
  by_cases h4 : goHasPrefix (goTrimSpace raw) "FN:" = true
  · rw [if_pos h4, lcovWithFile_report]
  rw [if_neg h4]
  by_cases h5 : goHasPrefix (goTrimSpace raw) "FNDA:" = true
  · rw [if_pos h5, lcovWithFile_report]
  rw [if_neg h5]
  by_cases h6 : goHasPrefix (goTrimSpace raw) "FNF:" = true
  · rw [if_pos h6]
  rw [if_neg h6]
  by_cases h7 : goHasPrefix (goTrimSpace raw) "FNH:" = true
  · rw [if_pos h7]
  rw [if_neg h7]
  by_cases h8 : goHasPrefix (goTrimSpace raw) "DA:" = true
  · rw [if_pos h8, lcovWithFile_report]
  rw [if_neg h8]
  by_cases h9 : goHasPrefix (goTrimSpace raw) "LH:" = true
  · rw [if_pos h9, lcovWithFile_report]
  rw [if_neg h9]
  by_cases h10 : goHasPrefix (goTrimSpace raw) "LF:" = true
  · rw [if_pos h10, lcovWithFile_report]
  rw [if_neg h10]
  by_cases h11 : goHasPrefix (goTrimSpace raw) "BRF:" = true
  · rw [if_pos h11]
  rw [if_neg h11]
  by_cases h12 : goHasPrefix (goTrimSpace raw) "BRH:" = true
  · rw [if_pos h12]
  rw [if_neg h12]
  by_cases h13 : goHasPrefix (goTrimSpace raw) "BRDA:" = true
  · rw [if_pos h13]
  rw [if_neg h13]
  rw [if_neg h]

theorem lcovLoop_files_of_no_end (st : LcovState) (n : Int) (lines : List String)
    (h : ∀ l ∈ lines, goTrimSpace l ≠ "end_of_record") :
    (lcovLoop st n lines).report.files = st.report.files := by
  induction lines generalizing st n with
  | nil => rfl
  | cons raw rest ih =>
    rw [lcovLoop]
    rw [ih (lcovStep st n raw) (n + 1) (fun l hl => h l (List.mem_cons_of_mem _ hl))]
    exact lcovStep_files_of_ne_end st n raw (h raw (List.mem_cons_self _ _))

/-- Claim C10.  (1) If no remaining line trims to `end_of_record`, the scan loop
never adds a file: sections cut off by the end of the input are absent and
nothing else changes in the report's file map.  (2) An `SF:` line replaces
the current-file context wholesale — same report, same warnings — so a
section interrupted by a new `SF:` record is dropped without a warning.
(3) Concretely, `SF:a.go / DA:1,1 / SF:b.go / DA:2,1 / end_of_record`
yields only `b.go` and an empty warning list. -/
theorem lcov_unterminated_section_dropped :
    (∀ (st : LcovState) (n : Int) (lines : List String),
        (∀ l ∈ lines, goTrimSpace l ≠ "end_of_record") →
        (lcovLoop st n lines).report.files = st.report.files) ∧
    (∀ (st : LcovState) (n : Int) (raw : String),
        goHasPrefix (goTrimSpace raw) "SF:" = true →
        lcovStep st n raw =
          { st with
            current := some
              ({ fileName := goTrimPrefix (goTrimSpace raw) "SF:", totalLines := 0,
                 coveredLines := 0, coveragePct := 0, functions := [],
                 lines := [] } : FileCoverage) }) ∧
    lcovParse ["SF:a.go", "DA:1,1", "SF:b.go", "DA:2,1", "end_of_record"] =
      ({ testName := "",
         files := [("b.go",
           { fileName := "b.go", totalLines := 0, coveredLines := 0,
             coveragePct := 0, functions := [],
             lines := [(2, { lineNumber := 2, executionCount := 1, checksum := "" })] })] },
       []) := by
  refine ⟨lcovLoop_files_of_no_end, fun st n raw h => ?_, by decide⟩
  have hSF : "SF:".toList = ['S', 'F', ':'] := rfl
  have hTN : "TN:".toList = ['T', 'N', ':'] := rfl
  have hprf : hasPrefixL (goTrimSpace raw).toList ['S', 'F', ':'] = true := by
    rw [goHasPrefix, hSF] at h
    exact h
  have hne : goTrimSpace raw ≠ "" := by
    intro he
    rw [he] at hprf
    exact absurd hprf (by decide)
  have hTNfalse : ¬ (goHasPrefix (goTrimSpace raw) "TN:" = true) := by
    rw [goHasPrefix, hTN]
    rw [hasPrefixL_disjoint_head (by decide : 'S' ≠ 'T') hprf]
    exact Bool.false_ne_true
  simp only [lcovStep]
  rw [if_neg hne, if_neg hTNfalse, if_pos h]

/-- Claim C10, witness: the loop part at a concrete unterminated input and the
`SF:` step at a concrete state. -/
theorem lcov_unterminated_section_dropped_witness :
    (lcovLoop { report := newCoverageReport, current := none, warnings := [] } 1
        ["SF:x.go", "DA:1,1", "LF:1"]).report.files = [] ∧
    lcovStep { report := newCoverageReport, current := none, warnings := [] } 1 "SF:y.go" =
      { report := newCoverageReport,
        current := some
          ({ fileName := "y.go", totalLines := 0, coveredLines := 0, coveragePct := 0,
             functions := [], lines := [] } : FileCoverage),
        warnings := [] } :=
  ⟨lcov_unterminated_section_dropped.1
      { report := newCoverageReport, current := none, warnings := [] } 1
      ["SF:x.go", "DA:1,1", "LF:1"] (by decide),
   lcov_unterminated_section_dropped.2.1
      { report := newCoverageReport, current := none, warnings := [] } 1 "SF:y.go"
      (by decide)⟩

/-! ## Claim C4: detector classification of `mode:` streams -/

theorem detectStep_hasGo_mono (st : DetectState) (raw : String)
    (h : st.hasGo = true) : (detectStep st raw).hasGo = true := by
  unfold detectStep
  dsimp only
  by_cases he : goTrimSpace raw = ""
  · rw [if_pos he]
    exact h
  · rw [if_neg he]
    dsimp only
    rw [h]
    rfl

theorem detectFoldl_hasGo_mono (lines : List String) (st : DetectState)
    (h : st.hasGo = true) : (lines.foldl detectStep st).hasGo = true := by
  induction lines generalizing st with
  | nil => exact h
  | cons raw rest ih =>
    rw [List.foldl_cons]
    exact ih _ (detectStep_hasGo_mono st raw h)

/-- Claim C4, counterexample.  A first line `mode: foobar` — a `mode: <value>` line
whose value lies outside `{set, count, atomic}` — is NOT classified as the
range format: the detector returns Unknown. -/
theorem detectFormat_unknown_mode_value_cex :
    detectFormat ["mode: foobar"] = CoverageFormat.unknown ∧
    CoverageFormat.unknown ≠ CoverageFormat.goCover := by
  exact ⟨rfl, by decide⟩

/-- Claim C4, amended.  When the first physical line trims to a `mode:` line with
exactly two whitespace-separated fields whose second is `set`, `count` or
`atomic`, the detector classifies the stream as the range format regardless
of any record-format, XML or JSON markers on later scanned lines; a first
line whose mode value is anything else never sets the range-format marker
this way. -/
theorem detectFormat_mode_first_line (l0 : String) (rest : List String)
    (f v : String)
    (hpre : goHasPrefix (goTrimSpace l0) "mode:" = true)
    (hfields : goFields (goTrimSpace l0) = [f, v])
    (hv : v = "set" ∨ v = "count" ∨ v = "atomic") :
    detectFormat (l0 :: rest) = CoverageFormat.goCover := by
  have hne : goTrimSpace l0 ≠ "" := by
    intro he
    rw [he, (rfl : goFields "" = [])] at hfields
    cases hfields
  have hstep : (detectStep
      { lineCount := 0, hasLCOV := false, hasGo := false, hasXML := false,
        hasJSON := false } l0).hasGo = true := by
    unfold detectStep
    dsimp only
    rw [if_neg hne]
    dsimp only
    rw [hpre, hfields]
    rcases hv with rfl | rfl | rfl <;> rfl
  unfold detectFormat
  rw [List.take_succ_cons, List.foldl_cons]
  rw [if_pos (detectFoldl_hasGo_mono _ _ hstep)]

/-- Claim C4, witness: the detector-precedence stream — `mode: set` followed by
record-format lines — classifies as the range format. -/
theorem detectFormat_mode_first_line_witness :
    detectFormat ["mode: set", "TN:t", "SF:f.go", "DA:1,1"] = CoverageFormat.goCover :=
  detectFormat_mode_first_line "mode: set" ["TN:t", "SF:f.go", "DA:1,1"]
    "mode:" "set" rfl rfl (Or.inl rfl)

/-! ## Claim C5: the range-format parser's hard errors -/

theorem gocoverLoop_warnings_extend (ls : List String) (mode : String)
    (r : CoverageReport) (w : List String) (n : Int) :
    ∃ w', (gocoverLoop mode r w n ls).2 = w ++ w' := by
  induction ls generalizing r w n with
  | nil => exact ⟨[], by simp [gocoverLoop]⟩
  | cons raw rest ih =>
    rw [gocoverLoop]
    by_cases he : goTrimSpace raw = ""
    · rw [if_pos he]
      exact ih r w (n + 1)
    · rw [if_neg he]
      cases hp : parseCoverageEntry mode r (goTrimSpace raw) with
      | ok r' => exact ih r' w (n + 1)
      | error e =>
        obtain ⟨w', hw'⟩ := ih r (lcovWarn w n e) (n + 1)
        refine ⟨["line " ++ toString n ++ ": " ++ e] ++ w', ?_⟩
        rw [hw', lcovWarn, List.append_assoc]

/-- Claim C5, counterexample.  An input whose first physical line is empty but
whose first non-empty line is a valid `mode: set` declaration is a hard
error: the parser demands the mode declaration on line 1 literally, so the
claim's "first non-empty line" reading fails (and `mode: set` alone parses
fine). -/
theorem gocover_first_nonempty_mode_cex :
    gocoverParse ["", "mode: set"] =
      Except.error "invalid Go coverage file: missing mode declaration on line 1" ∧
    gocoverParse ["mode: set"] = Except.ok ({ testName := "", files := [] }, []) := by
  exact ⟨rfl, rfl⟩

/-- Claim C5, amended.  The parser's hard errors are exactly: an empty stream and
a first physical line (empty or not) that does not start, after trimming,
with `mode:`.  Whenever the first line is a mode declaration the parse
succeeds — malformed entries only warn — and a mode value outside
`{set, count, atomic}` yields a success carrying the unknown-mode warning. -/
theorem gocover_mode_line_errors :
    (gocoverParse [] = Except.error "empty coverage file") ∧
    (∀ (first : String) (rest : List String),
        goHasPrefix (goTrimSpace first) "mode:" = false →
        gocoverParse (first :: rest) =
          Except.error "invalid Go coverage file: missing mode declaration on line 1") ∧
    (∀ (first : String) (rest : List String),
        goHasPrefix (goTrimSpace first) "mode:" = true →
        ∃ r w, gocoverParse (first :: rest) = Except.ok (r, w)) ∧
    (∀ (first : String) (rest : List String),
        goHasPrefix (goTrimSpace first) "mode:" = true →
        goTrimSpace (goTrimPrefix (goTrimSpace first) "mode:") ≠ "set" →
        goTrimSpace (goTrimPrefix (goTrimSpace first) "mode:") ≠ "count" →
        goTrimSpace (goTrimPrefix (goTrimSpace first) "mode:") ≠ "atomic" →
        ∃ r w, gocoverParse (first :: rest) = Except.ok (r, w) ∧
          ("line 1: unknown coverage mode: " ++
            goTrimSpace (goTrimPrefix (goTrimSpace first) "mode:")) ∈ w) := by
  refine ⟨rfl, fun first rest h => ?_, fun first rest h => ?_,
    fun first rest h h1 h2 h3 => ?_⟩
  · rw [gocoverParse]
    rw [if_pos (by rw [h]; exact Bool.false_ne_true)]
  · rw [gocoverParse]
    rw [if_neg (fun hc => hc h)]
    dsimp only
    rcases hlw : gocoverLoop (goTrimSpace (goTrimPrefix (goTrimSpace first) "mode:"))
        newCoverageReport
        (if goTrimSpace (goTrimPrefix (goTrimSpace first) "mode:") ≠ "set" ∧
            goTrimSpace (goTrimPrefix (goTrimSpace first) "mode:") ≠ "count" ∧
            goTrimSpace (goTrimPrefix (goTrimSpace first) "mode:") ≠ "atomic" then
          lcovWarn [] 1 ("unknown coverage mode: " ++
            goTrimSpace (goTrimPrefix (goTrimSpace first) "mode:"))
        else []) 2 rest with ⟨rep, ws⟩
    exact ⟨_, _, rfl⟩
  · rw [gocoverParse]
    rw [if_neg (fun hc => hc h)]
    dsimp only
    rw [if_pos ⟨h1, h2, h3⟩]
    obtain ⟨w', hw'⟩ := gocoverLoop_warnings_extend rest
      (goTrimSpace (goTrimPrefix (goTrimSpace first) "mode:")) newCoverageReport
      (lcovWarn [] 1 ("unknown coverage mode: " ++
        goTrimSpace (goTrimPrefix (goTrimSpace first) "mode:"))) 2
    rcases hlw : gocoverLoop (goTrimSpace (goTrimPrefix (goTrimSpace first) "mode:"))
        newCoverageReport
        (lcovWarn [] 1 ("unknown coverage mode: " ++
          goTrimSpace (goTrimPrefix (goTrimSpace first) "mode:"))) 2 rest with ⟨rep, ws⟩
    rw [hlw] at hw'
    have hw2 : ws = lcovWarn [] 1 ("unknown coverage mode: " ++
        goTrimSpace (goTrimPrefix (goTrimSpace first) "mode:")) ++ w' := hw'
    refine ⟨_, ws, rfl, ?_⟩
    have hstr : ("line 1: unknown coverage mode: " ++
        goTrimSpace (goTrimPrefix (goTrimSpace first) "mode:")) =
        ("line " ++ toString (1 : Int) ++ ": ") ++
          ("unknown coverage mode: " ++
            goTrimSpace (goTrimPrefix (goTrimSpace first) "mode:")) := rfl
    rw [hstr, hw2, lcovWarn]
    simp

/-- Claim C5, witness: an unknown mode value parses without error and the
unknown-mode warning is present. -/
theorem gocover_mode_line_errors_witness :
    ∃ r w, gocoverParse ["mode: weird"] = Except.ok (r, w) ∧
      ("line 1: unknown coverage mode: weird") ∈ w :=
  gocover_mode_line_errors.2.2.2 "mode: weird" [] rfl
    (by decide) (by decide) (by decide)

/-! ## Claim C6: set-mode accumulation -/

/-- Claim C6, counterexample.  In set mode the FIRST range to touch a line records
its raw execution count: `mode: set` with the single entry
`f.go:1.1,1.5 1 5` leaves line 1 at count 5, not at the claimed 1. -/
theorem gocover_set_mode_first_touch_cex :
    gocoverParse ["mode: set", "f.go:1.1,1.5 1 5"] =
      Except.ok
        ({ testName := "",
           files := [("f.go",
             { fileName := "f.go", totalLines := 1, coveredLines := 1,
               coveragePct := 100, functions := [],
               lines := [(1, { lineNumber := 1, executionCount := 5, checksum := "" })] })] },
         []) ∧
    (5 : Int) ≠ 1 := by
  constructor
  · have h : gocoverParse ["mode: set", "f.go:1.1,1.5 1 5"] =
        Except.ok
          ({ testName := "",
             files := [("f.go",
               { fileName := "f.go", totalLines := 1, coveredLines := 1,
                 coveragePct := ((1 : Int) : ℚ) / ((1 : Int) : ℚ) * 100, functions := [],
                 lines := [(1, { lineNumber := 1, executionCount := 5, checksum := "" })] })] },
           []) := rfl
    rw [h]
    norm_num
  · decide

/-- Claim C6, amended.  In any mode other than `count`/`atomic` (in particular in
set mode) the per-range update is: a line already recorded gets count 1 when
the new range's execCount is positive and keeps its previous entry
otherwise, while a line touched for the first time records the raw
execCount.  Consequently the two-entry set-mode input with counts 1 and 0
over the same range yields execution count 1 in either order. -/
theorem gocover_set_mode_or_update :
    (∀ (mode : String) (lines : List (Int × LineCoverage)) (lineNo c : Int)
        (ex : LineCoverage),
        mode ≠ "count" → mode ≠ "atomic" →
        lookupInt lineNo lines = some ex →
        lookupInt lineNo (applyLine mode lines lineNo c) =
          some (if 0 < c then { ex with executionCount := 1 } else ex)) ∧
    (∀ (mode : String) (lines : List (Int × LineCoverage)) (lineNo c : Int),
        lookupInt lineNo lines = none →
        lookupInt lineNo (applyLine mode lines lineNo c) =
          some { lineNumber := lineNo, executionCount := c, checksum := "" }) ∧
    gocoverParse ["mode: set", "f.go:1.1,1.5 1 1", "f.go:1.1,1.5 1 0"] =
      Except.ok
        ({ testName := "",
           files := [("f.go",
             { fileName := "f.go", totalLines := 1, coveredLines := 1,
               coveragePct := 100, functions := [],
               lines := [(1, { lineNumber := 1, executionCount := 1, checksum := "" })] })] },
         []) ∧
    gocoverParse ["mode: set", "f.go:1.1,1.5 1 0", "f.go:1.1,1.5 1 1"] =
      Except.ok
        ({ testName := "",
           files := [("f.go",
             { fileName := "f.go", totalLines := 1, coveredLines := 1,
               coveragePct := 100, functions := [],
               lines := [(1, { lineNumber := 1, executionCount := 1, checksum := "" })] })] },
         []) := by
  refine ⟨fun mode lines lineNo c ex hm1 hm2 hex => ?_,
    fun mode lines lineNo c hnone => ?_, ?_, ?_⟩
  · unfold applyLine
    rw [hex]
    dsimp only
    rw [if_neg (by rintro (hc | hc) <;> [exact hm1 hc; exact hm2 hc])]
    by_cases hc : 0 < c
    · rw [if_pos hc, if_pos hc, lookupInt_linesInsert_self]
    · rw [if_neg hc, if_neg hc, lookupInt_linesInsert_self]
  · unfold applyLine
    rw [hnone]
    dsimp only
    rw [lookupInt_linesInsert_self]
  · have h : gocoverParse ["mode: set", "f.go:1.1,1.5 1 1", "f.go:1.1,1.5 1 0"] =
        Except.ok
          ({ testName := "",
             files := [("f.go",
               { fileName := "f.go", totalLines := 1, coveredLines := 1,
                 coveragePct := ((1 : Int) : ℚ) / ((1 : Int) : ℚ) * 100, functions := [],
                 lines := [(1, { lineNumber := 1, executionCount := 1, checksum := "" })] })] },
           []) := rfl
    rw [h]
    norm_num
  · have h : gocoverParse ["mode: set", "f.go:1.1,1.5 1 0", "f.go:1.1,1.5 1 1"] =
        Except.ok
          ({ testName := "",
             files := [("f.go",
               { fileName := "f.go", totalLines := 1, coveredLines := 1,
                 coveragePct := ((1 : Int) : ℚ) / ((1 : Int) : ℚ) * 100, functions := [],
                 lines := [(1, { lineNumber := 1, executionCount := 1, checksum := "" })] })] },
           []) := rfl
    rw [h]
    norm_num

/-- Claim C6, witness: the update rule at a concrete existing line (a positive
range forces count 1; a zero range keeps the stored entry). -/
theorem gocover_set_mode_or_update_witness :
    lookupInt 7 (applyLine "set"
      [(7, { lineNumber := 7, executionCount := 3, checksum := "" })] 7 0) =
      some { lineNumber := 7, executionCount := 3, checksum := "" } := by
  have h := gocover_set_mode_or_update.1 "set"
    [(7, { lineNumber := 7, executionCount := 3, checksum := "" })] 7 0
    { lineNumber := 7, executionCount := 3, checksum := "" }
    (by decide) (by decide) rfl
  simpa using h

/-! ## Claim C9: XML class line counting -/

theorem xmlClassStep_fst (filename : String) (ls : List XLine)
    (m : List (Int × LineCoverage)) (w : List String) :
    (ls.foldl (xmlClassStep filename) (m, w)).1 = ls.foldl xmlLineStep m := by
  induction ls generalizing m w with
  | nil => rfl
  | cons l rest ih =>
    rw [List.foldl_cons, List.foldl_cons]
    exact ih _ _

theorem linesInsert_keys_of_mem {k : Int} {l : List (Int × LineCoverage)}
    (h : k ∈ l.map Prod.fst) (v : LineCoverage) :
    (linesInsert k v l).map Prod.fst = l.map Prod.fst := by
  induction l with
  | nil => simp at h
  | cons e rest ih =>
    by_cases hk : k = e.1
    · subst hk
      simp [linesInsert]
    · simp only [List.map_cons, List.mem_cons] at h
      rcases h with h | h

      · exact absurd h hk
      · simp only [linesInsert, if_neg hk, List.map_cons, ih h]

theorem linesInsert_keys_nodup {l : List (Int × LineCoverage)}
    (h : (l.map Prod.fst).Nodup) (k : Int) (v : LineCoverage) :
    ((linesInsert k v l).map Prod.fst).Nodup := by
  by_cases hk : k ∈ l.map Prod.fst
  · rw [linesInsert_keys_of_mem hk]
    exact h
  · rw [linesInsert_of_not_mem hk]
    rw [List.map_append]
    simp only [List.map_cons, List.map_nil]
    exact List.Nodup.append h (List.nodup_singleton k)
      (by simpa [List.disjoint_singleton] using hk)

theorem xmlFold_keys (ls : List XLine) (m : List (Int × LineCoverage)) (n : Int) :
    n ∈ (ls.foldl xmlLineStep m).map Prod.fst ↔
      n ∈ m.map Prod.fst ∨ n ∈ ls.map XLine.number := by
  induction ls generalizing m with
  | nil => simp
  | cons l rest ih =>
    rw [List.foldl_cons]
    rw [ih]
    unfold xmlLineStep
    rw [linesInsert_keys_mem]
    simp only [List.map_cons, List.mem_cons]
    tauto

theorem xmlFold_keys_nodup (ls : List XLine) (m : List (Int × LineCoverage))
    (h : (m.map Prod.fst).Nodup) :
    (((ls.foldl xmlLineStep m)).map Prod.fst).Nodup := by
  induction ls generalizing m with
  | nil => exact h
  | cons l rest ih =>
    rw [List.foldl_cons]
    exact ih _ (linesInsert_keys_nodup h _ _)

theorem xmlFold_length (ls : List XLine) (m : List (Int × LineCoverage))
    (h : (m.map Prod.fst).Nodup) :
    (ls.foldl xmlLineStep m).length =
      ((m.map Prod.fst).toFinset ∪ (ls.map XLine.number).toFinset).card := by
  induction ls generalizing m with
  | nil =>
    simp only [List.foldl_nil, List.map_nil, List.toFinset_nil, Finset.union_empty]
    rw [List.toFinset_card_of_nodup h, List.length_map]
  | cons l rest ih =>
    have hnn : ((xmlLineStep m l).map Prod.fst).Nodup := linesInsert_keys_nodup h _ _
    rw [List.foldl_cons, ih (xmlLineStep m l) hnn]
    congr 1
    apply Finset.ext
    intro a
    simp only [Finset.mem_union, List.mem_toFinset, List.map_cons, List.mem_cons]
    rw [show (xmlLineStep m l) = linesInsert l.number
      { lineNumber := l.number, executionCount := l.hits, checksum := "" } m from rfl]
    rw [linesInsert_keys_mem]
    tauto

theorem xmlFold_of_fresh (ls : List XLine) (m : List (Int × LineCoverage))
    (hfresh : ∀ l ∈ ls, l.number ∉ m.map Prod.fst)
    (hnodup : (ls.map XLine.number).Nodup) :
    ls.foldl xmlLineStep m =
      m ++ ls.map (fun l =>
        (l.number, ({ lineNumber := l.number, executionCount := l.hits,
                      checksum := "" } : LineCoverage))) := by
  induction ls generalizing m with
  | nil => simp
  | cons l rest ih =>
    rw [List.foldl_cons]
    rw [show xmlLineStep m l = linesInsert l.number
      { lineNumber := l.number, executionCount := l.hits, checksum := "" } m from rfl]
    rw [linesInsert_of_not_mem (hfresh l (List.mem_cons_self _ _))]
    rw [List.map_cons] at hnodup
    have hrest : ∀ l' ∈ rest, l'.number ∉
        (m ++ [(l.number, ({ lineNumber := l.number, executionCount := l.hits, checksum := "" } : LineCoverage))]).map Prod.fst := by
      intro l' hl'
      rw [List.map_append]
      simp only [List.map_cons, List.map_nil, List.mem_append, List.mem_cons,
        List.not_mem_nil]
      rintro (hm | hsing)
      · exact hfresh l' (List.mem_cons_of_mem _ hl') hm
      · rcases hsing with hx | hx
        · exact (List.nodup_cons.mp hnodup).1 (hx ▸ List.mem_map_of_mem XLine.number hl')
        · exact hx
    rw [ih _ hrest (List.nodup_cons.mp hnodup).2]
    simp [List.append_assoc]

theorem length_filter_pos_map (ls : List XLine) :
    ((ls.map (fun l =>
        (l.number, ({ lineNumber := l.number, executionCount := l.hits,
                      checksum := "" } : LineCoverage)))).filter
      (fun p => 0 < p.2.executionCount)).length =
      (ls.filter (fun l => 0 < l.hits)).length := by
  induction ls with
  | nil => rfl
  | cons l rest ih =>
    by_cases hl : 0 < l.hits
    · simp only [List.map_cons, List.filter_cons]
      rw [if_pos (by simpa using hl), if_pos (by simpa using hl)]
      simp [ih]
    · simp only [List.map_cons, List.filter_cons]
      rw [if_neg (by simpa using hl), if_neg (by simpa using hl)]
      exact ih

/-- Claim C9, counterexample.  A class with two line elements carrying the same
`number` yields `TotalLines = 1`, not the claimed count of line elements
(2): duplicate numbers collapse into one map entry. -/
theorem parseClass_duplicate_number_cex :
    (parseClass
        { filename := "f.py",
          lines := [{ number := 1, hits := 1 }, { number := 1, hits := 1 }] }).1.totalLines = 1 ∧
    ([({ number := 1, hits := 1 } : XLine), { number := 1, hits := 1 }]).length = 2 ∧
    (1 : Int) ≠ 2 := by
  exact ⟨rfl, rfl, by decide⟩

/-- Claim C9, amended.  For every class element, `TotalLines` equals the number
of DISTINCT line numbers among its line elements (duplicates collapse into
one map entry), `CoveredLines` counts the resulting map entries with a
positive execution count, and when the line numbers are pairwise distinct —
the normal Cobertura shape — `TotalLines` equals the number of line
elements and `CoveredLines` the number of line elements with `hits > 0`. -/
theorem parseClass_line_counts (cls : XClass) :
    (parseClass cls).1.totalLines = (((cls.lines.map XLine.number).toFinset.card : Int)) ∧
    (parseClass cls).1.coveredLines =
      ((((parseClass cls).1.lines.filter (fun p => 0 < p.2.executionCount)).length : Int)) ∧
    ((cls.lines.map XLine.number).Nodup →
      (parseClass cls).1.totalLines = (cls.lines.length : Int) ∧
      (parseClass cls).1.coveredLines =
        (((cls.lines.filter (fun l => 0 < l.hits)).length : Int))) := by
  have hmap : (cls.lines.foldl (xmlClassStep (goTrimPrefix cls.filename "./")) ([], [])).1
      = cls.lines.foldl xmlLineStep [] := xmlClassStep_fst _ _ [] []
  have hfile : (parseClass cls).1 =
      { fileName := goTrimPrefix cls.filename "./",
        totalLines := ((cls.lines.foldl xmlLineStep []).length : Int),
        coveredLines := (((cls.lines.foldl xmlLineStep []).filter
          (fun p => 0 < p.2.executionCount)).length : Int),
        coveragePct := 0, functions := [],
        lines := cls.lines.foldl xmlLineStep [] } := by
    unfold parseClass
    rw [← hmap]
  refine ⟨?_, ?_, fun hnodup => ⟨?_, ?_⟩⟩
  · rw [hfile]
    dsimp only
    rw [xmlFold_length cls.lines [] (by simp)]
    simp
  · rw [hfile]
  · rw [hfile]
    dsimp only
    rw [xmlFold_of_fresh cls.lines [] (by simp) hnodup]
    simp
  · rw [hfile]
    dsimp only
    rw [xmlFold_of_fresh cls.lines [] (by simp) hnodup]
    rw [List.nil_append, length_filter_pos_map]

/-- Claim C9, witness: the distinct-numbers case at a concrete two-line class. -/
theorem parseClass_line_counts_witness :
    (parseClass
        { filename := "g.py",
          lines := [{ number := 1, hits := 2 }, { number := 3, hits := 0 }] }).1.totalLines = 2 ∧
    (parseClass
        { filename := "g.py",
          lines := [{ number := 1, hits := 2 }, { number := 3, hits := 0 }] }).1.coveredLines = 1 :=
  ((parseClass_line_counts
      { filename := "g.py",
        lines := [{ number := 1, hits := 2 }, { number := 3, hits := 0 }] }).2.2
    (by decide))

/-! ## Claim C2: diff union semantics -/

theorem keyUnion_mem (l : List String) (seen : List String) (n : String) :
    n ∈ keyUnion seen l ↔ n ∈ l ∧ n ∉ seen := by
  induction l generalizing seen with
  | nil => simp [keyUnion]
  | cons k rest ih =>
    by_cases hk : k ∈ seen
    · rw [keyUnion, if_pos hk, ih]
      constructor
      · rintro ⟨h1, h2⟩
        exact ⟨List.mem_cons_of_mem _ h1, h2⟩
      · rintro ⟨h1, h2⟩
        rcases List.mem_cons.mp h1 with rfl | h1
        · exact absurd hk h2
        · exact ⟨h1, h2⟩
    · rw [keyUnion, if_neg hk]
      rw [List.mem_cons, ih]
      constructor
      · rintro (rfl | ⟨h1, h2⟩)
        · exact ⟨List.mem_cons_self _ _, hk⟩
        · exact ⟨List.mem_cons_of_mem _ h1,
            fun hs => h2 (List.mem_cons_of_mem _ hs)⟩
      · rintro ⟨h1, h2⟩
        rcases List.mem_cons.mp h1 with rfl | h1
        · exact Or.inl rfl
        · by_cases hnk : n = k
          · exact Or.inl hnk
          · exact Or.inr ⟨h1, by simp [hnk, h2]⟩

theorem keyUnion_filter_length (l : List String) (seen : List String) (n : String) :
    ((keyUnion seen l).filter (fun m => m = n)).length =
      if n ∈ l ∧ n ∉ seen then 1 else 0 := by
  induction l generalizing seen with
  | nil => simp [keyUnion]
  | cons k rest ih =>
    by_cases hk : k ∈ seen
    · rw [keyUnion, if_pos hk, ih]
      by_cases hnk : n = k
      · subst hnk
        simp [hk]
      · simp only [List.mem_cons]
        congr 1
        simp [hnk]
    · rw [keyUnion, if_neg hk]
      rw [List.filter_cons]
      by_cases hnk : k = n
      · subst hnk
        rw [if_pos (by simp)]
        simp only [List.length_cons, ih]
        rw [if_neg (by simp), if_pos ⟨List.mem_cons_self _ _, hk⟩]
      · rw [if_neg (by simp [hnk])]
        rw [ih]
        have h1 : (n ∈ rest ∧ n ∉ k :: seen) ↔ (n ∈ k :: rest ∧ n ∉ seen) := by
          simp only [List.mem_cons]
          constructor
          · rintro ⟨h1, h2⟩
            push_neg at h2
            exact ⟨Or.inr h1, h2.2⟩
          · rintro ⟨h1, h2⟩
            rcases h1 with rfl | h1
            · exact absurd rfl hnk
            · exact ⟨h1, fun hc => hc.elim (fun he => hnk he.symm) h2⟩
        rw [if_congr h1 rfl rfl]

theorem filter_length_map_fileChange (f : String → FileChange)
    (hf : ∀ m, (f m).fileName = m) (names : List String) (n : String) :
    ((names.map f).filter (fun c => c.fileName = n)).length =
      (names.filter (fun m => m = n)).length := by
  induction names with
  | nil => rfl
  | cons m rest ih =>
    rw [List.map_cons, List.filter_cons, List.filter_cons]
    by_cases hm : m = n
    · rw [if_pos (by simp [hf, hm]), if_pos (by simp [hm])]
      simp [ih]
    · rw [if_neg (by simp [hf, hm]), if_neg (by simp [hm])]
      exact ih

/-- The `fileChanges` list that `computeDiff` builds, in closed form. -/
theorem computeDiff_fileChanges (A B : CoverageReport) :
    (computeDiff A B).fileChanges =
      (keyUnion [] (A.files.map Prod.fst ++ B.files.map Prod.fst)).map
        (diffEntry A B) := rfl

theorem diffEntry_fileName (A B : CoverageReport) (fname : String) :
    (diffEntry A B fname).fileName = fname := rfl

theorem diffEntry_only_in_A (A B : CoverageReport) (n : String)
    (fc : FileCoverage) (hA : lookupStr n A.files = some fc)
    (hB : lookupStr n B.files = none) :
    diffEntry A B n =
      { fileName := n, coverageA := fc.coveragePct, coverageB := 0,
        delta := -fc.coveragePct } := by
  unfold diffEntry
  rw [show covGetFile A n = some fc from hA, show covGetFile B n = none from hB]
  dsimp only
  rw [zero_sub]

theorem diffEntry_only_in_B (A B : CoverageReport) (n : String)
    (fc : FileCoverage) (hA : lookupStr n A.files = none)
    (hB : lookupStr n B.files = some fc) :
    diffEntry A B n =
      { fileName := n, coverageA := 0, coverageB := fc.coveragePct,
        delta := fc.coveragePct } := by
  unfold diffEntry
  rw [show covGetFile A n = none from hA, show covGetFile B n = some fc from hB]
  dsimp only
  rw [sub_zero]

/-- Claim C2.  `computeDiff` emits exactly one `FileChange` per file path in the
union of the two reports' file sets (zero-delta entries included), a path
present on one side only contributes 0 for the absent side, and its delta is
the present side's percentage — negated when the file is only in the first
report. -/
theorem computeDiff_union_semantics (A B : CoverageReport) (n : String) :
    (((computeDiff A B).fileChanges.filter (fun c => c.fileName = n)).length =
      if n ∈ A.files.map Prod.fst ∨ n ∈ B.files.map Prod.fst then 1 else 0) ∧
    (∀ fc : FileCoverage, lookupStr n A.files = some fc →
      lookupStr n B.files = none →
      ({ fileName := n, coverageA := fc.coveragePct, coverageB := 0,
         delta := -fc.coveragePct } : FileChange) ∈ (computeDiff A B).fileChanges) ∧
    (∀ fc : FileCoverage, lookupStr n A.files = none →
      lookupStr n B.files = some fc →
      ({ fileName := n, coverageA := 0, coverageB := fc.coveragePct,
         delta := fc.coveragePct } : FileChange) ∈ (computeDiff A B).fileChanges) := by
  refine ⟨?_, fun fc hA hB => ?_, fun fc hA hB => ?_⟩
  · rw [computeDiff_fileChanges]
    rw [filter_length_map_fileChange _ (diffEntry_fileName A B)]
    rw [keyUnion_filter_length]
    have hiff : (n ∈ A.files.map Prod.fst ++ B.files.map Prod.fst ∧
        n ∉ ([] : List String)) ↔
        (n ∈ A.files.map Prod.fst ∨ n ∈ B.files.map Prod.fst) := by
      simp [List.mem_append]
    rw [if_congr hiff rfl rfl]
  · rw [computeDiff_fileChanges, ← diffEntry_only_in_A A B n fc hA hB]
    refine List.mem_map_of_mem _ ?_
    rw [keyUnion_mem]
    exact ⟨List.mem_append.mpr (Or.inl (mem_keys_of_lookupStr hA)), by simp⟩
  · rw [computeDiff_fileChanges, ← diffEntry_only_in_B A B n fc hA hB]
    refine List.mem_map_of_mem _ ?_
    rw [keyUnion_mem]
    exact ⟨List.mem_append.mpr (Or.inr (mem_keys_of_lookupStr hB)), by simp⟩

/-- Claim C2, witness: a file present only in the first report at a concrete pair
of reports yields the entry `(50, 0, -50)`. -/
theorem computeDiff_union_semantics_witness :
    ({ fileName := "a.go", coverageA := 50, coverageB := 0,
       delta := -50 } : FileChange) ∈
      (computeDiff
        { testName := "",
          files := [("a.go",
            { fileName := "a.go", totalLines := 10, coveredLines := 5,
              coveragePct := 50, functions := [], lines := [] })] }
        { testName := "", files := [] }).fileChanges :=
  (computeDiff_union_semantics
    { testName := "",
      files := [("a.go",
        { fileName := "a.go", totalLines := 10, coveredLines := 5,
          coveragePct := 50, functions := [], lines := [] })] }
    { testName := "", files := [] } "a.go").2.1
    { fileName := "a.go", totalLines := 10, coveredLines := 5,
      coveragePct := 50, functions := [], lines := [] } rfl rfl

/-! ## Claim C8: JSON parser error handling -/

theorem pyJsonParseFile_spec (fn : String) (fd : FileCoverageJSON)
    (r : CoverageReport) :
    ∃ file w, pyJsonParseFile fn fd r = Except.ok (covAddFile r file, w) ∧
      file.fileName = goTrimPrefix fn "./" := by
  unfold pyJsonParseFile
  dsimp only
  split
  · exact ⟨_, _, rfl, rfl⟩
  · exact ⟨_, _, rfl, rfl⟩

theorem covAddFile_keys_mono (r : CoverageReport) (fc : FileCoverage)
    {k : String} (h : k ∈ r.files.map Prod.fst) :
    k ∈ (covAddFile r fc).files.map Prod.fst := by
  unfold covAddFile
  dsimp only
  rw [filesInsert_keys_mem]
  exact Or.inr h

theorem covAddFile_key_mem (r : CoverageReport) (fc : FileCoverage) :
    fc.fileName ∈ (covAddFile r fc).files.map Prod.fst := by
  unfold covAddFile
  dsimp only
  rw [filesInsert_keys_mem]
  exact Or.inl rfl

theorem pyJsonFilesLoop_keys_mono (fs : List (String × FileCoverageJSON))
    (r : CoverageReport) (w : List String) {k : String}
    (h : k ∈ r.files.map Prod.fst) :
    k ∈ (pyJsonFilesLoop r w fs).1.files.map Prod.fst := by
  induction fs generalizing r w with
  | nil => exact h
  | cons kv rest ih =>
    obtain ⟨file, wf, hok, _⟩ := pyJsonParseFile_spec kv.1 kv.2 r
    rw [pyJsonFilesLoop, hok]
    exact ih _ _ (covAddFile_keys_mono r file h)

theorem pyJsonFilesLoop_keys_present (fs : List (String × FileCoverageJSON))
    (r : CoverageReport) (w : List String) :
    ∀ kv ∈ fs, goTrimPrefix kv.1 "./" ∈ (pyJsonFilesLoop r w fs).1.files.map Prod.fst := by
  induction fs generalizing r w with
  | nil => intro kv hkv; cases hkv
  | cons kv0 rest ih =>
    intro kv hkv
    obtain ⟨file, wf, hok, hname⟩ := pyJsonParseFile_spec kv0.1 kv0.2 r
    rw [pyJsonFilesLoop, hok]
    rcases List.mem_cons.mp hkv with rfl | hkv
    · exact pyJsonFilesLoop_keys_mono rest _ _ (hname ▸ covAddFile_key_mem r file)
    · exact ih _ _ kv hkv

theorem keys_map_calculateCoverage (files : List (String × FileCoverage)) :
    (files.map (fun p => (p.1, calculateCoverage p.2))).map Prod.fst =
      files.map Prod.fst := by
  induction files with
  | nil => rfl
  | cons p rest ih => simp [ih]

/-- Claim C8, counterexample.  A structural problem confined to one file's entry
(`a.py`'s `executed_lines` is a string) is a HARD error for the whole parse
— no warning, no partial report — even though the sibling entry `b.py` on
its own parses fine: the claimed warn-and-skip behaviour does not happen. -/
theorem pyjson_per_file_problem_cex :
    pyJsonParse (some (Json.obj [("files", Json.obj
        [("a.py", Json.obj [("executed_lines", Json.str "oops")]),
         ("b.py", Json.obj [("executed_lines", Json.arr [Json.num 1])])])])) =
      Except.error "failed to parse JSON: unmarshal error" ∧
    (pyJsonParse (some (Json.obj [("files", Json.obj
        [("b.py", Json.obj [("executed_lines", Json.arr [Json.num 1])])])]))).isOk
      = true := by
  exact ⟨rfl, rfl⟩

/-- Claim C8, amended.  Malformed top-level JSON is a hard error with no report,
and so is ANY decode-level type mismatch, including one confined to a single
file's entry (Go's `Unmarshal` reports it after decoding, and `Parse` turns
it into a hard error).  The per-file warn-and-skip path is dead code:
`parseFile` never returns an error, so once decoding succeeds Parse returns
no error and EVERY file of the `files` mapping appears (with `./` trimmed)
in the returned report. -/
theorem pyjson_error_handling :
    (pyJsonParse none = Except.error "failed to parse JSON: syntax error") ∧
    (∀ j : Json, (decodeCoverageJSON j).2 = true →
      pyJsonParse (some j) = Except.error "failed to parse JSON: unmarshal error") ∧
    (∀ (fn : String) (fd : FileCoverageJSON) (r : CoverageReport),
      ∃ r' w, pyJsonParseFile fn fd r = Except.ok (r', w)) ∧
    (∀ (j : Json) (cj : CoverageJSON), decodeCoverageJSON j = (cj, false) →
      ∃ rep w, pyJsonParse (some j) = Except.ok (rep, w) ∧
        ∀ kv ∈ cj.files, goTrimPrefix kv.1 "./" ∈ rep.files.map Prod.fst) := by
  refine ⟨rfl, fun j h => ?_, fun fn fd r => ?_, fun j cj hd => ?_⟩
  · rw [pyJsonParse]
    rcases hd : decodeCoverageJSON j with ⟨cj, b⟩
    rw [hd] at h
    dsimp only at h
    subst h
    rfl
  · obtain ⟨file, w, hok, _⟩ := pyJsonParseFile_spec fn fd r
    exact ⟨_, _, hok⟩
  · rw [pyJsonParse, hd]
    dsimp only
    rcases hloop : pyJsonFilesLoop newCoverageReport [] cj.files with ⟨rep0, ws⟩
    refine ⟨_, ws, rfl, ?_⟩
    intro kv hkv
    dsimp only
    rw [keys_map_calculateCoverage]
    have := pyJsonFilesLoop_keys_present cj.files newCoverageReport [] kv hkv
    rw [hloop] at this
    exact this

/-- Claim C8, witness: a well-formed document with one file entry parses without
error and the file appears in the report. -/
theorem pyjson_error_handling_witness :
    ∃ rep w,
      pyJsonParse (some (Json.obj [("files", Json.obj
        [("./b.py", Json.obj [("executed_lines", Json.arr [Json.num 1])])])])) =
        Except.ok (rep, w) ∧
      ∀ kv ∈ ([("./b.py",
          ({ executedLines := [1], missingLines := [],
             summary := { coveredLines := 0, numStatements := 0 } }
            : FileCoverageJSON))] : List (String × FileCoverageJSON)),
        goTrimPrefix kv.1 "./" ∈ rep.files.map Prod.fst :=
  pyjson_error_handling.2.2.2
    (Json.obj [("files", Json.obj
      [("./b.py", Json.obj [("executed_lines", Json.arr [Json.num 1])])])])
    { files := [("./b.py",
        { executedLines := [1], missingLines := [],
          summary := { coveredLines := 0, numStatements := 0 } })] }
    rfl

/-! ## Claim C1: merge — union with summed counts, but through mutation -/

/-- The file name stored at a heap cell. -/
def heapNameAt (heap : Heap) (p : Nat) : String :=
  (heapGet heap p).fileName

/-- Sum of the `TotalLines` of the cells among `ps` whose name is `n`. -/
def sumTotals (heap : Heap) (n : String) : List Nat → Int
  | [] => 0
  | p :: ps =>
    (if heapNameAt heap p = n then (heapGet heap p).totalLines else 0) +
      sumTotals heap n ps

/-- Sum of the `CoveredLines` of the cells among `ps` whose name is `n`. -/
def sumCovered (heap : Heap) (n : String) : List Nat → Int
  | [] => 0
  | p :: ps =>
    (if heapNameAt heap p = n then (heapGet heap p).coveredLines else 0) +
      sumCovered heap n ps

/-- The counts already merged for `n` before processing a pointer list. -/
def baseTotal (heap : Heap) (mf : List (String × Nat)) (n : String) : Int :=
  match lookupStr n mf with
  | some q => (heapGet heap q).totalLines
  | none => 0

def baseCovered (heap : Heap) (mf : List (String × Nat)) (n : String) : Int :=
  match lookupStr n mf with
  | some q => (heapGet heap q).coveredLines
  | none => 0

theorem heapGet_set_self (heap : Heap) (q : Nat) (v : FileCoverage)
    (h : q < heap.length) : heapGet (heap.set q v) q = v := by
  unfold heapGet
  rw [List.getD_eq_getElem?_getD, List.getElem?_set_self h]
  rfl

theorem heapGet_set_ne (heap : Heap) {q j : Nat} (v : FileCoverage)
    (h : q ≠ j) : heapGet (heap.set q v) j = heapGet heap j := by
  unfold heapGet
  rw [List.getD_eq_getElem?_getD, List.getElem?_set_ne h,
    ← List.getD_eq_getElem?_getD]

theorem calculateCoverage_counts (fc : FileCoverage) :
    (calculateCoverage fc).totalLines = fc.totalLines ∧
    (calculateCoverage fc).coveredLines = fc.coveredLines ∧
    (calculateCoverage fc).fileName = fc.fileName := by
  unfold calculateCoverage
  split <;> exact ⟨rfl, rfl, rfl⟩

theorem sumTotals_congr {h₁ h₂ : Heap} (n : String) (ps : List Nat)
    (h : ∀ p ∈ ps, heapGet h₁ p = heapGet h₂ p) :
    sumTotals h₁ n ps = sumTotals h₂ n ps := by
  induction ps with
  | nil => rfl
  | cons p rest ih =>
    rw [sumTotals, sumTotals, heapNameAt, heapNameAt,
      h p (List.mem_cons_self _ _), ih (fun x hx => h x (List.mem_cons_of_mem _ hx))]

theorem sumCovered_congr {h₁ h₂ : Heap} (n : String) (ps : List Nat)
    (h : ∀ p ∈ ps, heapGet h₁ p = heapGet h₂ p) :
    sumCovered h₁ n ps = sumCovered h₂ n ps := by
  induction ps with
  | nil => rfl
  | cons p rest ih =>
    rw [sumCovered, sumCovered, heapNameAt, heapNameAt,
      h p (List.mem_cons_self _ _), ih (fun x hx => h x (List.mem_cons_of_mem _ hx))]

theorem namesAt_congr {h₁ h₂ : Heap} (ps : List Nat)
    (h : ∀ p ∈ ps, heapGet h₁ p = heapGet h₂ p) :
    ps.map (heapNameAt h₁) = ps.map (heapNameAt h₂) := by
  induction ps with
  | nil => rfl
  | cons p rest ih =>
    rw [List.map_cons, List.map_cons, heapNameAt, heapNameAt,
      h p (List.mem_cons_self _ _), ih (fun x hx => h x (List.mem_cons_of_mem _ hx))]

theorem lookupStr_snd_nodup_ne {mf : List (String × Nat)}
    (h : (mf.map Prod.snd).Nodup) {n₁ n₂ : String} {q₁ q₂ : Nat}
    (h1 : lookupStr n₁ mf = some q₁) (h2 : lookupStr n₂ mf = some q₂)
    (hne : n₁ ≠ n₂) : q₁ ≠ q₂ := by
  induction mf with
  | nil => cases h1
  | cons e rest ih =>
    rw [List.map_cons, List.nodup_cons] at h
    by_cases he1 : n₁ = e.1
    · rw [lookupStr, if_pos he1] at h1
      have hq1 : q₁ = e.2 := by injection h1 with hinj; exact hinj.symm
      have he2 : ¬ n₂ = e.1 := fun hc => hne (he1.trans hc.symm)
      rw [lookupStr, if_neg he2] at h2
      intro hc
      apply h.1
      have he : e.2 = q₂ := by rw [← hq1, hc]
      rw [he]
      exact List.mem_map_of_mem Prod.snd (lookupStr_mem h2)
    · rw [lookupStr, if_neg he1] at h1
      by_cases he2 : n₂ = e.1
      · rw [lookupStr, if_pos he2] at h2
        have hq2 : q₂ = e.2 := by injection h2 with hinj; exact hinj.symm
        intro hc
        apply h.1
        have he : e.2 = q₁ := by rw [← hq2, hc]
        rw [he]
        exact List.mem_map_of_mem Prod.snd (lookupStr_mem h1)
      · rw [lookupStr, if_neg he2] at h2
        exact ih h.2 h1 h2

theorem mergeStep_some (heap : Heap) (mf : List (String × Nat)) (p q₀ : Nat)
    (h : lookupStr (heapGet heap p).fileName mf = some q₀) :
    mergeStep (heap, mf) p =
      (heap.set q₀ (calculateCoverage
        { heapGet heap q₀ with
          totalLines := (heapGet heap q₀).totalLines + (heapGet heap p).totalLines,
          coveredLines := (heapGet heap q₀).coveredLines + (heapGet heap p).coveredLines }),
       mf) := by
  unfold mergeStep
  dsimp only
  rw [h]

theorem mergeStep_none (heap : Heap) (mf : List (String × Nat)) (p : Nat)
    (h : lookupStr (heapGet heap p).fileName mf = none) :
    mergeStep (heap, mf) p = (heap, mf ++ [((heapGet heap p).fileName, p)]) := by
  unfold mergeStep
  dsimp only
  rw [h]

/-- The invariant of the merge loop: after processing a pointer list, the
merged map covers exactly the pre-existing names and the names of the
processed cells; each merged entry's counts are the pre-existing base plus
the sum over the processed cells with that name; and each merged pointer is
either pre-existing or one of the processed input pointers (aliasing). -/
theorem mergeEntries_spec (ps : List Nat) :
    ∀ (heap : Heap) (mf : List (String × Nat)),
    (∀ p ∈ ps, p < heap.length) →
    (∀ e ∈ mf, e.2 < heap.length) →
    ((mf.map Prod.snd) ++ ps).Nodup →
    (∀ n : String,
      (∃ q, lookupStr n (mergeEntries (heap, mf) ps).2 = some q) ↔
        ((∃ q, lookupStr n mf = some q) ∨ n ∈ ps.map (heapNameAt heap))) ∧
    (∀ (n : String) (q : Nat),
      lookupStr n (mergeEntries (heap, mf) ps).2 = some q →
      (heapGet (mergeEntries (heap, mf) ps).1 q).totalLines =
          baseTotal heap mf n + sumTotals heap n ps ∧
      (heapGet (mergeEntries (heap, mf) ps).1 q).coveredLines =
          baseCovered heap mf n + sumCovered heap n ps ∧
      (lookupStr n mf = some q ∨ (q ∈ ps ∧ heapNameAt heap q = n))) := by
  induction ps with
  | nil =>
    intro heap mf hps hmf hnd
    constructor
    · intro n
      simp [mergeEntries]
    · intro n q hq
      have hq' : lookupStr n mf = some q := hq
      refine ⟨?_, ?_, Or.inl hq'⟩
      · show (heapGet heap q).totalLines = baseTotal heap mf n + sumTotals heap n []
        rw [baseTotal, hq', sumTotals, add_zero]
      · show (heapGet heap q).coveredLines = baseCovered heap mf n + sumCovered heap n []
        rw [baseCovered, hq', sumCovered, add_zero]
  | cons p ps' ih =>
    intro heap mf hps hmf hnd
    have hplen : p < heap.length := hps p (List.mem_cons_self _ _)
    have hps' : ∀ x ∈ ps', x < heap.length :=
      fun x hx => hps x (List.mem_cons_of_mem _ hx)
    rw [List.nodup_append] at hnd
    obtain ⟨hndmf, hndps, hdisj⟩ := hnd
    have hstep : mergeEntries (heap, mf) (p :: ps') =
        mergeEntries (mergeStep (heap, mf) p) ps' := rfl
    cases hq₀ : lookupStr (heapGet heap p).fileName mf with
    | some q₀ =>
      have hq₀mem : ((heapGet heap p).fileName, q₀) ∈ mf := lookupStr_mem hq₀
      have hq₀len : q₀ < heap.length := hmf _ hq₀mem
      have hq₀snd : q₀ ∈ mf.map Prod.snd := List.mem_map_of_mem Prod.snd hq₀mem
      have hq₀ne_p : q₀ ≠ p :=
        fun hc => hdisj hq₀snd (hc ▸ List.mem_cons_self p ps')
      have hq₀notin' : q₀ ∉ ps' :=
        fun hc => hdisj hq₀snd (List.mem_cons_of_mem _ hc)
      rw [hstep, mergeStep_some heap mf p q₀ hq₀]
      have hlen : (heap.set q₀ (calculateCoverage
          { heapGet heap q₀ with
            totalLines := (heapGet heap q₀).totalLines + (heapGet heap p).totalLines,
            coveredLines := (heapGet heap q₀).coveredLines +
              (heapGet heap p).coveredLines })).length = heap.length :=
        List.length_set heap _ _
      have hframe : ∀ x ∈ ps',
          heapGet (heap.set q₀ (calculateCoverage
            { heapGet heap q₀ with
              totalLines := (heapGet heap q₀).totalLines + (heapGet heap p).totalLines,
              coveredLines := (heapGet heap q₀).coveredLines +
                (heapGet heap p).coveredLines })) x = heapGet heap x :=
        fun x hx => heapGet_set_ne heap _ (fun hc => hq₀notin' (hc ▸ hx))
      have hget₁ : heapGet (heap.set q₀ (calculateCoverage
          { heapGet heap q₀ with
            totalLines := (heapGet heap q₀).totalLines + (heapGet heap p).totalLines,
            coveredLines := (heapGet heap q₀).coveredLines +
              (heapGet heap p).coveredLines })) q₀ =
          calculateCoverage
            { heapGet heap q₀ with
              totalLines := (heapGet heap q₀).totalLines + (heapGet heap p).totalLines,
              coveredLines := (heapGet heap q₀).coveredLines +
                (heapGet heap p).coveredLines } :=
        heapGet_set_self heap q₀ _ hq₀len
      obtain ⟨ihA, ihB⟩ := ih
        (heap.set q₀ (calculateCoverage
          { heapGet heap q₀ with
            totalLines := (heapGet heap q₀).totalLines + (heapGet heap p).totalLines,
            coveredLines := (heapGet heap q₀).coveredLines +
              (heapGet heap p).coveredLines })) mf
        (fun x hx => by rw [hlen]; exact hps' x hx)
        (fun e he => by rw [hlen]; exact hmf e he)
        (by rw [List.nodup_append]
            exact ⟨hndmf, (List.nodup_cons.mp hndps).2,
              fun a ha hb => hdisj ha (List.mem_cons_of_mem _ hb)⟩)
      constructor
      · intro n
        rw [ihA n, namesAt_congr ps' hframe, List.map_cons]
        constructor
        · rintro (hmf' | hps'')
          · exact Or.inl hmf'
          · exact Or.inr (List.mem_cons_of_mem _ hps'')
        · rintro (hmf' | hcons)
          · exact Or.inl hmf'
          · rcases List.mem_cons.mp hcons with heq | hmem
            · exact Or.inl ⟨q₀, by rw [heq, heapNameAt]; exact hq₀⟩
            · exact Or.inr hmem
      · intro n q hq
        obtain ⟨htot, hcov, hprov⟩ := ihB n q hq
        rw [sumTotals_congr n ps' hframe] at htot
        rw [sumCovered_congr n ps' hframe] at hcov
        by_cases hn : (heapGet heap p).fileName = n
        · have hbase_t : baseTotal (heap.set q₀ (calculateCoverage
              { heapGet heap q₀ with
                totalLines := (heapGet heap q₀).totalLines + (heapGet heap p).totalLines,
                coveredLines := (heapGet heap q₀).coveredLines +
                  (heapGet heap p).coveredLines })) mf n =
              (heapGet heap q₀).totalLines + (heapGet heap p).totalLines := by
            unfold baseTotal
            rw [← hn, hq₀]
            dsimp only
            rw [hget₁]
            exact (calculateCoverage_counts _).1
          have hbase_c : baseCovered (heap.set q₀ (calculateCoverage
              { heapGet heap q₀ with
                totalLines := (heapGet heap q₀).totalLines + (heapGet heap p).totalLines,
                coveredLines := (heapGet heap q₀).coveredLines +
                  (heapGet heap p).coveredLines })) mf n =
              (heapGet heap q₀).coveredLines + (heapGet heap p).coveredLines := by
            unfold baseCovered
            rw [← hn, hq₀]
            dsimp only
            rw [hget₁]
            exact (calculateCoverage_counts _).2.1
          have hbase_t0 : baseTotal heap mf n = (heapGet heap q₀).totalLines := by
            unfold baseTotal
            rw [← hn, hq₀]
          have hbase_c0 : baseCovered heap mf n = (heapGet heap q₀).coveredLines := by
            unfold baseCovered
            rw [← hn, hq₀]
          refine ⟨?_, ?_, ?_⟩
          · rw [htot, hbase_t, sumTotals, heapNameAt, if_pos hn, hbase_t0]
            omega
          · rw [hcov, hbase_c, sumCovered, heapNameAt, if_pos hn, hbase_c0]
            omega
          · rcases hprov with hmf' | ⟨hqps, hname⟩
            · exact Or.inl hmf'
            · refine Or.inr ⟨List.mem_cons_of_mem _ hqps, ?_⟩
              rw [heapNameAt] at hname ⊢
              rw [← hframe q hqps]
              exact hname
        · have hbase_t : baseTotal (heap.set q₀ (calculateCoverage
              { heapGet heap q₀ with
                totalLines := (heapGet heap q₀).totalLines + (heapGet heap p).totalLines,
                coveredLines := (heapGet heap q₀).coveredLines +
                  (heapGet heap p).coveredLines })) mf n = baseTotal heap mf n := by
            unfold baseTotal
            cases hqn : lookupStr n mf with
            | none => rfl
            | some qn =>
              dsimp only
              rw [heapGet_set_ne heap _
                (lookupStr_snd_nodup_ne hndmf hq₀ hqn hn)]
          have hbase_c : baseCovered (heap.set q₀ (calculateCoverage
              { heapGet heap q₀ with
                totalLines := (heapGet heap q₀).totalLines + (heapGet heap p).totalLines,
                coveredLines := (heapGet heap q₀).coveredLines +
                  (heapGet heap p).coveredLines })) mf n = baseCovered heap mf n := by
            unfold baseCovered
            cases hqn : lookupStr n mf with
            | none => rfl
            | some qn =>
              dsimp only
              rw [heapGet_set_ne heap _
                (lookupStr_snd_nodup_ne hndmf hq₀ hqn hn)]
          refine ⟨?_, ?_, ?_⟩
          · rw [htot, hbase_t, sumTotals, heapNameAt, if_neg hn]
            omega
          · rw [hcov, hbase_c, sumCovered, heapNameAt, if_neg hn]
            omega
          · rcases hprov with hmf' | ⟨hqps, hname⟩
            · exact Or.inl hmf'
            · refine Or.inr ⟨List.mem_cons_of_mem _ hqps, ?_⟩
              rw [heapNameAt] at hname ⊢
              rw [← hframe q hqps]
              exact hname
    | none =>
      rw [hstep, mergeStep_none heap mf p hq₀]
      have hlookup₁ : ∀ n, lookupStr n (mf ++ [((heapGet heap p).fileName, p)]) =
          (match lookupStr n mf with
            | some v => some v
            | none => if n = (heapGet heap p).fileName then some p else none) := by
        intro n
        rw [lookupStr_append]
        cases lookupStr n mf with
        | some v => rfl
        | none => rfl
      obtain ⟨ihA, ihB⟩ := ih heap (mf ++ [((heapGet heap p).fileName, p)])
        hps'
        (by intro e he
            rcases List.mem_append.mp he with he | he
            · exact hmf e he
            · rcases List.mem_cons.mp he with rfl | hc
              · exact hplen
              · cases hc)
        (by rw [List.map_append]
            rw [List.nodup_append] at *
            refine ⟨?_, ?_, ?_⟩
            · rw [List.nodup_append]
              refine ⟨hndmf, List.nodup_singleton p, ?_⟩
              intro a ha hb
              rcases List.mem_cons.mp hb with rfl | hc
              · exact hdisj ha (List.mem_cons_self _ _)
              · cases hc
            · exact (List.nodup_cons.mp hndps).2
            · intro a ha hb
              rcases List.mem_append.mp ha with ha | ha
              · exact hdisj ha (List.mem_cons_of_mem _ hb)
              · rcases List.mem_cons.mp ha with rfl | hc
                · exact (List.nodup_cons.mp hndps).1 hb
                · cases hc)
      constructor
      · intro n
        rw [ihA n, List.map_cons]
        constructor
        · rintro (⟨q, hmf'⟩ | hps'')
          · rw [hlookup₁ n] at hmf'
            cases hqn : lookupStr n mf with
            | some v => exact Or.inl ⟨v, rfl⟩
            | none =>
              rw [hqn] at hmf'
              dsimp only at hmf'
              by_cases hne : n = (heapGet heap p).fileName
              · exact Or.inr (List.mem_cons.mpr (Or.inl (by rw [heapNameAt]; exact hne)))
              · rw [if_neg hne] at hmf'
                cases hmf'
          · exact Or.inr (List.mem_cons_of_mem _ hps'')
        · rintro (⟨q, hmf'⟩ | hcons)
          · refine Or.inl ⟨q, ?_⟩
            rw [hlookup₁ n, hmf']
          · rcases List.mem_cons.mp hcons with heq | hmem
            · refine Or.inl ⟨p, ?_⟩
              rw [heapNameAt] at heq
              have hqnone : lookupStr n mf = none := heq ▸ hq₀
              rw [hlookup₁ n, hqnone]
              dsimp only
              rw [if_pos heq]
            · exact Or.inr hmem
      · intro n q hq
        obtain ⟨htot, hcov, hprov⟩ := ihB n q hq
        by_cases hn : (heapGet heap p).fileName = n
        · have hmfnone : lookupStr n mf = none := hn ▸ hq₀
          have hbase_t : baseTotal heap (mf ++ [((heapGet heap p).fileName, p)]) n =
              (heapGet heap p).totalLines := by
            unfold baseTotal
            rw [hlookup₁ n, hmfnone]
            dsimp only
            rw [if_pos hn.symm]
          have hbase_c : baseCovered heap (mf ++ [((heapGet heap p).fileName, p)]) n =
              (heapGet heap p).coveredLines := by
            unfold baseCovered
            rw [hlookup₁ n, hmfnone]
            dsimp only
            rw [if_pos hn.symm]
          have hbase_t0 : baseTotal heap mf n = 0 := by
            unfold baseTotal
            rw [hmfnone]
          have hbase_c0 : baseCovered heap mf n = 0 := by
            unfold baseCovered
            rw [hmfnone]
          refine ⟨?_, ?_, ?_⟩
          · rw [htot, hbase_t, sumTotals, heapNameAt, if_pos hn, hbase_t0]
            omega
          · rw [hcov, hbase_c, sumCovered, heapNameAt, if_pos hn, hbase_c0]
            omega
          · rcases hprov with hmf' | ⟨hqps, hname⟩
            · rw [hlookup₁ n, hmfnone] at hmf'
              dsimp only at hmf'
              rw [if_pos hn.symm] at hmf'
              have hqp : q = p := by injection hmf' with hinj; exact hinj.symm
              exact Or.inr ⟨hqp ▸ List.mem_cons_self _ _, by rw [hqp, heapNameAt]; exact hn⟩
            · exact Or.inr ⟨List.mem_cons_of_mem _ hqps, hname⟩
        · have hbase_t : baseTotal heap (mf ++ [((heapGet heap p).fileName, p)]) n =
              baseTotal heap mf n := by
            unfold baseTotal
            rw [hlookup₁ n]
            cases hqn : lookupStr n mf with
            | some v => rfl
            | none =>
              dsimp only
              rw [if_neg (fun hc => hn hc.symm)]
          have hbase_c : baseCovered heap (mf ++ [((heapGet heap p).fileName, p)]) n =
              baseCovered heap mf n := by
            unfold baseCovered
            rw [hlookup₁ n]
            cases hqn : lookupStr n mf with
            | some v => rfl
            | none =>
              dsimp only
              rw [if_neg (fun hc => hn hc.symm)]
          refine ⟨?_, ?_, ?_⟩
          · rw [htot, hbase_t, sumTotals, heapNameAt, if_neg hn]
            omega
          · rw [hcov, hbase_c, sumCovered, heapNameAt, if_neg hn]
            omega
          · rcases hprov with hmf' | ⟨hqps, hname⟩
            · rw [hlookup₁ n] at hmf'
              cases hqn : lookupStr n mf with
              | some v =>
                rw [hqn] at hmf'
                exact Or.inl hmf'
              | none =>
                rw [hqn] at hmf'
                dsimp only at hmf'
                rw [if_neg (fun hc => hn hc.symm)] at hmf'
                cases hmf'
            · exact Or.inr ⟨List.mem_cons_of_mem _ hqps, hname⟩

theorem mergeReportsH_eq_flatten (reports : List (List Nat)) :
    ∀ hp : Heap × List (String × Nat),
      reports.foldl mergeEntries hp = mergeEntries hp reports.flatten := by
  induction reports with
  | nil => intro hp; rfl
  | cons r rs ih =>
    intro hp
    rw [List.foldl_cons, ih (mergeEntries hp r)]
    show mergeEntries (mergeEntries hp r) rs.flatten = mergeEntries hp (r :: rs).flatten
    rw [show (r :: rs).flatten = r ++ rs.flatten from rfl]
    unfold mergeEntries
    rw [List.foldl_append]

/-- Claim C1, counterexample.  Merging two reports that both contain `file.go`
mutates the first input report's entry through the shared pointer: its
`TotalLines` becomes the merged sum 150, no longer the original 100 — the
operand is not left unchanged. -/
theorem mergeReports_mutates_input_cex :
    (heapGet (mergeReportsH
        [{ fileName := "file.go", totalLines := 100, coveredLines := 80,
           coveragePct := 80, functions := [], lines := [] },
         { fileName := "file.go", totalLines := 50, coveredLines := 40,
           coveragePct := 80, functions := [], lines := [] }]
        [[0], [1]]).1 0).totalLines = 150 ∧
    (heapGet
        [{ fileName := "file.go", totalLines := 100, coveredLines := 80,
           coveragePct := 80, functions := [], lines := [] },
         { fileName := "file.go", totalLines := 50, coveredLines := 40,
           coveragePct := 80, functions := [], lines := [] }] 0).totalLines = 100 ∧
    (150 : Int) ≠ 100 := by
  exact ⟨rfl, rfl, by decide⟩

/-- Claim C1, amended.  `mergeReports` builds a report whose file set is the
union of the inputs' file names, with each name's `TotalLines` and
`CoveredLines` equal to the sums over all input occurrences — but it does
NOT copy: every merged entry is one of the input reports' own heap cells
(the first occurrence of the name), so when a path recurs the summed counts
are written into that input report's `FileCoverage` through the alias, and
the operand reports are not left unchanged. -/
theorem mergeReports_union_sums_aliasing (heap : Heap) (reports : List (List Nat))
    (hval : ∀ p ∈ reports.flatten, p < heap.length)
    (hnd : reports.flatten.Nodup) :
    (∀ n : String, (∃ q, lookupStr n (mergeReportsH heap reports).2 = some q) ↔
        n ∈ reports.flatten.map (heapNameAt heap)) ∧
    (∀ (n : String) (q : Nat),
        lookupStr n (mergeReportsH heap reports).2 = some q →
        (heapGet (mergeReportsH heap reports).1 q).totalLines =
            sumTotals heap n reports.flatten ∧
        (heapGet (mergeReportsH heap reports).1 q).coveredLines =
            sumCovered heap n reports.flatten ∧
        q ∈ reports.flatten ∧ heapNameAt heap q = n) := by
  obtain ⟨hA, hB⟩ := mergeEntries_spec reports.flatten heap []
    hval (by intro e he; cases he) (by simpa using hnd)
  have hrw : mergeReportsH heap reports = mergeEntries (heap, []) reports.flatten :=
    mergeReportsH_eq_flatten reports (heap, [])
  constructor
  · intro n
    rw [hrw, hA n]
    constructor
    · rintro (⟨q, hq⟩ | hmem)
      · cases hq
      · exact hmem
    · intro hmem
      exact Or.inr hmem
  · intro n q hq
    rw [hrw] at hq
    obtain ⟨ht, hc, hprov⟩ := hB n q hq
    rw [hrw]
    refine ⟨?_, ?_, ?_⟩
    · rw [ht, show baseTotal heap [] n = 0 from rfl, zero_add]
    · rw [hc, show baseCovered heap [] n = 0 from rfl, zero_add]
    · rcases hprov with hmf | hpair
      · cases hmf
      · exact hpair

/-- Claim C1, witness: the amended theorem at the concrete two-report heap; the
merged entry for `file.go` is input cell 0 and carries the summed counts. -/
theorem mergeReports_union_sums_aliasing_witness :
    (heapGet (mergeReportsH
        [{ fileName := "file.go", totalLines := 100, coveredLines := 80,
           coveragePct := 80, functions := [], lines := [] },
         { fileName := "file.go", totalLines := 50, coveredLines := 40,
           coveragePct := 80, functions := [], lines := [] }]
        [[0], [1]]).1 0).totalLines =
      sumTotals
        [{ fileName := "file.go", totalLines := 100, coveredLines := 80,
           coveragePct := 80, functions := [], lines := [] },
         { fileName := "file.go", totalLines := 50, coveredLines := 40,
           coveragePct := 80, functions := [], lines := [] }]
        "file.go" ([[0], [1]] : List (List Nat)).flatten ∧
    (heapGet (mergeReportsH
        [{ fileName := "file.go", totalLines := 100, coveredLines := 80,
           coveragePct := 80, functions := [], lines := [] },
         { fileName := "file.go", totalLines := 50, coveredLines := 40,
           coveragePct := 80, functions := [], lines := [] }]
        [[0], [1]]).1 0).coveredLines =
      sumCovered
        [{ fileName := "file.go", totalLines := 100, coveredLines := 80,
           coveragePct := 80, functions := [], lines := [] },
         { fileName := "file.go", totalLines := 50, coveredLines := 40,
           coveragePct := 80, functions := [], lines := [] }]
        "file.go" ([[0], [1]] : List (List Nat)).flatten ∧
    0 ∈ ([[0], [1]] : List (List Nat)).flatten ∧
    heapNameAt
        [{ fileName := "file.go", totalLines := 100, coveredLines := 80,
           coveragePct := 80, functions := [], lines := [] },
         { fileName := "file.go", totalLines := 50, coveredLines := 40,
           coveragePct := 80, functions := [], lines := [] }] 0 = "file.go" :=
  (mergeReports_union_sums_aliasing
    [{ fileName := "file.go", totalLines := 100, coveredLines := 80,
       coveragePct := 80, functions := [], lines := [] },
     { fileName := "file.go", totalLines := 50, coveredLines := 40,
       coveragePct := 80, functions := [], lines := [] }]
    [[0], [1]] (by decide) (by decide)).2 "file.go" 0 rfl

end Covpeek
